import Mathlib

/-!
Verification of the structured-log JSON codec of
`src/twisted/python/logger/_json.py` and of the file-backed credential
store of `src/src/twisted/cred/checkers.py`.

The Python code is shallowly embedded:

* Python values that can appear in a log event are the inductive `PyValue`
  (text, byte strings, ints, booleans, `None`, lists, dicts, `LogLevel`
  constants, `Failure` records, and a marker for other opaque objects).
  JSON floats are outside the embedding: `json.dumps` serializes a float
  with `float.__repr__` (the shortest round-tripping decimal form) and
  `json.loads` reads one back with `float()` — IEEE-754 behaviour of the
  Python runtime, not of any code in this repository — so number-valued
  fields are covered for integers only, and the parser below rejects a
  fraction or exponent part (`floatGuard`) instead of mis-reading a
  float token as an integer.  Statements about the codec's float
  behaviour (finite floats round-trip by the shortest-repr guarantee; a
  NaN field compares unequal to itself under Python `==`) are therefore
  out of this development's reach, and no theorem below speaks for
  them.
* JSON documents are the inductive `JValue`.  `json.dumps` (with the
  `default` hook and `skipkeys=True` used by `eventAsJSON`) is split into
  `jOfPy` (Python value to JSON document, applying `objectSaveHook`) and
  `printJ` (JSON document to text, with Python's `ensure_ascii` escaping
  and the default `", "`/`": "` separators).  `json.loads` is split into
  `parseVal` (text to JSON document, mirroring the pure-Python scanner)
  and `pyOfJ` (JSON document to Python value, applying `objectLoadHook`
  bottom-up exactly as `object_hook` fires).
* Python exceptions are `PyErr`; only their class matters to the code
  (`except ValueError`), so no messages are carried.
* Byte strings are `List Nat`; each entry is meant to be below 256.

Every definition is written to be executable by the kernel (structural
recursion only, with an explicit fuel argument where the recursion is not
structural), so concrete runs reduce by `rfl`/`decide`.
-/

/-- The Python exception classes distinguished by the code under
verification.  `eventFromRecord` catches `ValueError` only
(`json.JSONDecodeError`, `UnicodeDecodeError` and the `ValueError` of
`uuid.UUID` are its subclasses); `KeyError` (a `LookupError`) and
`TypeError` are not caught there.  `keyError` is also the not-found
condition of `FilePasswordDB.getUser`. -/
inductive PyErr where
  | valueError
  | keyError
  | typeError
deriving Repr, DecidableEq

/-- The members of the fixed log-level enumeration
`twisted.python.logger._levels.LogLevel`. -/
inductive TwLogLevel where
  | debug
  | info
  | warn
  | error
  | critical
deriving Repr, DecidableEq

/-- `LogLevel.<member>.name`, the `NamedConstant` name of a level. -/
def TwLogLevel.levelName : TwLogLevel → String
  | .debug => "debug"
  | .info => "info"
  | .warn => "warn"
  | .error => "error"
  | .critical => "critical"

/-- `getattr(LogLevel, name, None)` restricted to the value domain of the
codec: member names yield the member, any other name yields `None`.
(Non-member class attributes of `LogLevel` are outside the embedding's
value domain.) -/
def levelFromName (s : String) : Option TwLogLevel :=
  if s = "debug" then some .debug
  else if s = "info" then some .info
  else if s = "warn" then some .warn
  else if s = "error" then some .error
  else if s = "critical" then some .critical
  else Option.none

mutual
/-- A Python value of the log-event domain.  `dict` keys are arbitrary
values (as in Python); `failure` is a `twisted.python.failure.Failure`.

Modelled from the spec: `Failure` itself lives in
`twisted/python/failure.py`, which is not under `src/`.  Following
section 4.1 of the spec, a failure carries an opaque captured state
mapping (`Failure.__getstate__()` is modelled as returning exactly that
mapping, with string keys) together with a type descriptor consisting of
the originating namespace (`failure.type.__module__`) and type name
(`failure.type.__name__`).  `obj` stands for any other Python object:
one that no registry predicate matches. -/
inductive PyValue where
  | str (s : String)
  | bytes (b : List Nat)
  | int (n : Int)
  | bool (b : Bool)
  | pynone
  | list (xs : PyList)
  | dict (xs : PyDict)
  | level (l : TwLogLevel)
  | failure (state : PyAssoc) (tyModule : String) (tyName : String)
  | obj
deriving Repr

/-- A Python list of `PyValue`s. -/
inductive PyList where
  | nil
  | cons (hd : PyValue) (tl : PyList)
deriving Repr

/-- A Python dict in insertion order (keys arbitrary values). -/
inductive PyDict where
  | nil
  | cons (key : PyValue) (val : PyValue) (tl : PyDict)
deriving Repr

/-- A Python dict whose keys are known to be strings (the shape handed to
`object_hook` by `json.loads`, and the shape of a failure's state). -/
inductive PyAssoc where
  | nil
  | cons (key : String) (val : PyValue) (tl : PyAssoc)
deriving Repr
end

namespace PyAssoc

/-- `d[k]` as an option: the value at the first matching key. -/
def lookup (k : String) : PyAssoc → Option PyValue
  | .nil => Option.none
  | .cons k2 v t => if k2 = k then some v else lookup k t

/-- `k in d`. -/
def hasKey (k : String) : PyAssoc → Bool
  | .nil => false
  | .cons k2 _ t => k2 = k || hasKey k t

/-- `d[k] = v`: replace the value at the first occurrence of `k` in
place, else append the new entry at the end (Python dict update
semantics, insertion order preserved). -/
def set (d : PyAssoc) (k : String) (v : PyValue) : PyAssoc :=
  match d with
  | .nil => .cons k v .nil
  | .cons k2 v2 t => if k2 = k then .cons k2 v t else .cons k2 v2 (set t k v)

/-- Remove the entry at the first occurrence of `k`, if any. -/
def erase (k : String) : PyAssoc → PyAssoc
  | .nil => .nil
  | .cons k2 v t => if k2 = k then t else .cons k2 v (erase k t)

end PyAssoc

namespace PyDict

/-- Look up a string key in a Python dict (used for
`typeInfo["__name__"]` on a loaded, hence string-keyed, dict). -/
def lookupStr (k : String) : PyDict → Option PyValue
  | .nil => Option.none
  | .cons k2 v t =>
    match k2 with
    | .str s => if s = k then some v else lookupStr k t
    | _ => lookupStr k t

end PyDict

mutual
/-- A parsed JSON document.  Numbers are integers only (see the module
comment); object member order is kept, as `json.loads` builds dicts in
insertion order. -/
inductive JValue where
  | jnull
  | jbool (b : Bool)
  | jnum (n : Int)
  | jstr (s : List Char)
  | jarr (xs : JArr)
  | jobj (xs : JObj)
deriving Repr

/-- A JSON array's element list. -/
inductive JArr where
  | nil
  | cons (hd : JValue) (tl : JArr)
deriving Repr

/-- A JSON object's member list. -/
inductive JObj where
  | nil
  | cons (key : List Char) (val : JValue) (tl : JObj)
deriving Repr
end

namespace JObj

/-- True when the object has a member with the given key. -/
def hasKey (k : List Char) : JObj → Bool
  | .nil => false
  | .cons k2 _ t => k2 = k || hasKey k t

/-- `d[k] = v` on a JSON object: replace in place or append. -/
def set (d : JObj) (k : List Char) (v : JValue) : JObj :=
  match d with
  | .nil => .cons k v .nil
  | .cons k2 v2 t => if k2 = k then .cons k2 v t else .cons k2 v2 (set t k v)

/-- Concatenation of member lists. -/
def append (a b : JObj) : JObj :=
  match a with
  | .nil => b
  | .cons k v t => .cons k v (append t b)

/-- The member keys, in order. -/
def keys : JObj → List (List Char)
  | .nil => []
  | .cons k _ t => k :: keys t

end JObj

/-- Build a Python dict from parsed JSON object members: last value wins
for a duplicated key, first occurrence fixes the position — exactly
`dict(pairs)` on the pair list the pure-Python `JSONObject` accumulates. -/
def dictOfPairsAux (acc : JObj) : JObj → JObj
  | .nil => acc
  | .cons k v t =>
    dictOfPairsAux (if acc.hasKey k then acc.set k v else acc.append (.cons k v .nil)) t

/-- `dict(pairs)` for a parsed member list. -/
def dictOfPairs (xs : JObj) : JObj := dictOfPairsAux .nil xs

/-- The lowercase hex digit for `n < 16` (Python's `%04x` formatting of
`\uXXXX` escapes is lowercase). -/
def hexDigit (n : Nat) : Char :=
  Char.ofNat (if n < 10 then 48 + n else 87 + n)

/-- A `\uXXXX` escape for a 16-bit code unit. -/
def ucode (n : Nat) : List Char :=
  ['\\', 'u', hexDigit (n / 4096 % 16), hexDigit (n / 256 % 16),
   hexDigit (n / 16 % 16), hexDigit (n % 16)]

/-- Python `json`'s `ensure_ascii` encoding of one character: `"` and
`\` get their own escapes, the control characters with short names use
them, every other character outside `0x20..0x7e` becomes `\uXXXX`
(a surrogate pair above `0xffff`), and the rest is literal. -/
def escapeChar (c : Char) : List Char :=
  if c.toNat = 34 then ['\\', '"']
  else if c.toNat = 92 then ['\\', '\\']
  else if c.toNat = 8 then ['\\', 'b']
  else if c.toNat = 9 then ['\\', 't']
  else if c.toNat = 10 then ['\\', 'n']
  else if c.toNat = 12 then ['\\', 'f']
  else if c.toNat = 13 then ['\\', 'r']
  else if c.toNat < 32 ∨ 127 ≤ c.toNat then
    if c.toNat < 65536 then ucode c.toNat
    else ucode (55296 + (c.toNat - 65536) / 1024) ++ ucode (56320 + (c.toNat - 65536) % 1024)
  else [c]

/-- The body of a serialized JSON string (without the quotes). -/
def escapeStr : List Char → List Char
  | [] => []
  | c :: t => escapeChar c ++ escapeStr t

/-- Decimal digits of `n`, most significant first, via an explicit fuel
(`fuel > n` suffices) so that the definition is structurally recursive
and kernel-reducible. -/
def natDigitsAux : Nat → Nat → List Char
  | 0, _ => []
  | fuel + 1, n =>
    if n < 10 then [Char.ofNat (48 + n)]
    else natDigitsAux fuel (n / 10) ++ [Char.ofNat (48 + n % 10)]

/-- Decimal digits of a natural number, as Python's `repr`. -/
def natDigits (n : Nat) : List Char := natDigitsAux (n + 1) n

/-- Python `repr` of an integer. -/
def printInt (n : Int) : List Char :=
  if n < 0 then '-' :: natDigits n.natAbs else natDigits n.toNat

mutual
/-- Serialize a JSON document to text the way `json.dumps` does with
`eventAsJSON`'s keyword arguments: `ensure_ascii` escaping and the
default separators `", "` and `": "`. -/
def printJ : JValue → List Char
  | .jnull => ['n', 'u', 'l', 'l']
  | .jbool b => if b then ['t', 'r', 'u', 'e'] else ['f', 'a', 'l', 's', 'e']
  | .jnum n => printInt n
  | .jstr s => '"' :: (escapeStr s ++ ['"'])
  | .jarr xs => '[' :: (printArr xs ++ [']'])
  | .jobj xs => '{' :: (printObj xs ++ ['}'])

/-- Array elements joined by `", "`. -/
def printArr : JArr → List Char
  | .nil => []
  | .cons x .nil => printJ x
  | .cons x (.cons y t) => printJ x ++ (',' :: ' ' :: printArr (.cons y t))

/-- Object members `"key": value` joined by `", "`. -/
def printObj : JObj → List Char
  | .nil => []
  | .cons k v .nil => '"' :: (escapeStr k ++ ('"' :: ':' :: ' ' :: printJ v))
  | .cons k v (.cons k2 v2 t) =>
    '"' :: (escapeStr k ++ ('"' :: ':' :: ' ' :: printJ v)) ++
      (',' :: ' ' :: printObj (.cons k2 v2 t))
end

/-- The reserved type-tag field name stamped by `objectSaveHook`. -/
def classUuidKey : String := "__class_uuid__"

/-- `str(UUID("02E59486-F24D-46AD-8224-3ACDF2A5732A"))`, the tag of the
log-level variant as stamped into saved events (lowercase, hyphenated). -/
def levelTagText : String := "02e59486-f24d-46ad-8224-3acdf2a5732a"

/-- `str(UUID("E76887E2-20ED-49BF-A8F8-BA25CC586F2D"))`, the tag of the
failure variant as stamped into saved events. -/
def failureTagText : String := "e76887e2-20ed-49bf-a8f8-ba25cc586f2d"

/-- The JSON `type` descriptor emitted by `failureAsJSON`:
`dict(__module__=..., __name__=...)`. -/
def typeDescJ (tyModule tyName : String) : JObj :=
  .cons ("__module__".data) (.jstr tyModule.data)
    (.cons ("__name__".data) (.jstr tyName.data) .nil)

/-- The serializable key Python's encoder uses for a non-string dict
key: strings pass, ints/bools/`None` are coerced to text, and any other
key is dropped because `eventAsJSON` passes `skipkeys=True` (list/dict
keys cannot occur in a real Python dict; they are likewise dropped). -/
def keyStr : PyValue → Option String
  | .str s => some s
  | .int n => some (String.mk (printInt n))
  | .bool b => some (if b then ("true") else ("false"))
  | .pynone => some ("null")
  | _ => Option.none

mutual
/-- The Python-value-to-JSON-document part of `eventAsJSON`'s call to
`json.dumps(event, default=default, skipkeys=True)`:

* native values are serialized directly (`bytes` first hit the
  `default` hook, which decodes them as charmap text);
* a `LogLevel` member and a `Failure` hit `objectSaveHook`, which
  emits the variant's saver output with `__class_uuid__` stamped in
  (`result["__class_uuid__"] = str(uuid)`, an in-place dict update);
  for a failure the saver is `failureAsJSON`, i.e.
  `dict(failure.__getstate__(), type=...)` — the update of `type` and
  of the tag is performed here on the serialized members, which agrees
  with updating the dict first and serializing after;
* any other object yields the `{"unpersistable": true}` marker. -/
def jOfPy : PyValue → JValue
  | .str s => .jstr s.data
  | .bytes b => .jstr (b.map Char.ofNat)
  | .int n => .jnum n
  | .bool b => .jbool b
  | .pynone => .jnull
  | .list xs => .jarr (jOfPyList xs)
  | .dict xs => .jobj (jOfPyDict xs)
  | .level l =>
    .jobj (.cons ("name".data) (.jstr l.levelName.data)
      (.cons classUuidKey.data (.jstr levelTagText.data) .nil))
  | .failure st tyModule tyName =>
    .jobj (((jOfPyAssoc st).set ("type".data) (.jobj (typeDescJ tyModule tyName))).set
      classUuidKey.data (.jstr failureTagText.data))
  | .obj => .jobj (.cons ("unpersistable".data) (.jbool true) .nil)

/-- Elementwise serialization of a list. -/
def jOfPyList : PyList → JArr
  | .nil => .nil
  | .cons x t => .cons (jOfPy x) (jOfPyList t)

/-- Member-wise serialization of a dict, dropping members whose key is
not serializable (`skipkeys=True`). -/
def jOfPyDict : PyDict → JObj
  | .nil => .nil
  | .cons k v t =>
    match keyStr k with
    | some ks => .cons ks.data (jOfPy v) (jOfPyDict t)
    | Option.none => jOfPyDict t

/-- Member-wise serialization of a string-keyed dict (a failure state). -/
def jOfPyAssoc : PyAssoc → JObj
  | .nil => .nil
  | .cons k v t => .cons k.data (jOfPy v) (jOfPyAssoc t)
end

/-- `flattenEvent` from `twisted/python/logger/_flatten.py`.

Modelled from the spec: `_flatten.py` is not under `src/`.  Per section
4.4 of the spec, step (1) of the Event Encoder flattens the event's
structure into a single mapping and is an upstream responsibility merely
invoked here, and per section 3 a log event is immutable once handed to
the encoder; on the already-flat mappings of this embedding the flatten
step is therefore the identity. -/

def flattenEvent (event : PyValue) : PyValue := event

/-- `eventAsJSON(event)`.  The first component is the returned JSON
text.  Because Python passes the event dict by reference and
`eventAsJSON` calls `flattenEvent(event)` on it before serializing, the
second component is the state of the caller's event mapping after the
call (serialization itself, `json.dumps`, does not write to its
argument). -/
def eventAsJSON (event : PyValue) : String × PyValue :=
  (String.mk (printJ (jOfPy (flattenEvent event))), flattenEvent event)

/-- JSON whitespace, Python `json`'s `WHITESPACE = ' \t\n\r'`. -/
def isWsChar (c : Char) : Bool :=
  c.toNat = 32 || c.toNat = 9 || c.toNat = 10 || c.toNat = 13

/-- Skip leading JSON whitespace. -/
def skipWs : List Char → List Char
  | [] => []
  | c :: t => if isWsChar c then skipWs t else c :: t

/-- The value of a hex digit, either case (Python parses `\uXXXX` with
`int(esc, 16)`). -/
def hexVal (c : Char) : Option Nat :=
  if 48 ≤ c.toNat ∧ c.toNat ≤ 57 then some (c.toNat - 48)
  else if 97 ≤ c.toNat ∧ c.toNat ≤ 102 then some (c.toNat - 87)
  else if 65 ≤ c.toNat ∧ c.toNat ≤ 70 then some (c.toNat - 55)
  else Option.none

/-- Four hex digits as one code unit. -/
def hex4 (a b c d : Char) : Option Nat :=
  match hexVal a, hexVal b, hexVal c, hexVal d with
  | some w, some x, some y, some z => some (w * 4096 + x * 256 + y * 16 + z)
  | _, _, _, _ => Option.none

/-- Prepend a character to the string of a successful parse. -/
def consStr (c : Char) : Option (List Char × List Char) → Option (List Char × List Char)
  | some (s, rest) => some (c :: s, rest)
  | Option.none => Option.none

/-- Parse the body of a JSON string after the opening quote, as the
pure-Python `py_scanstring` in strict mode: literal characters must be
`0x20` or above, the short escapes and `\uXXXX` are decoded, and a
`\uD800..\uDBFF` escape joins with a following `\uDC00..\uDFFF` escape
into one supplementary character.  A lone surrogate escape (which Python
would keep as an unpaired surrogate code point, a string this
embedding's scalar-value characters cannot hold) is rejected.  The
`fuel` argument only makes the recursion structural (hence
kernel-executable); every recursive call consumes input, so any fuel
above the input length is enough and `parseStr` supplies one. -/
def parseStrBody : Nat → List Char → Option (List Char × List Char)
  | 0, _ => Option.none
  | _ + 1, [] => Option.none
  | fuel + 1, c :: rest =>
    if c.toNat = 34 then some ([], rest)
    else if c.toNat = 92 then
      match rest with
      | [] => Option.none
      | e :: r =>
        if e.toNat = 34 then consStr '"' (parseStrBody fuel r)
        else if e.toNat = 92 then consStr '\\' (parseStrBody fuel r)
        else if e.toNat = 47 then consStr '/' (parseStrBody fuel r)
        else if e.toNat = 98 then consStr (Char.ofNat 8) (parseStrBody fuel r)
        else if e.toNat = 102 then consStr (Char.ofNat 12) (parseStrBody fuel r)
        else if e.toNat = 110 then consStr (Char.ofNat 10) (parseStrBody fuel r)
        else if e.toNat = 114 then consStr (Char.ofNat 13) (parseStrBody fuel r)
        else if e.toNat = 116 then consStr (Char.ofNat 9) (parseStrBody fuel r)
        else if e.toNat = 117 then
          match r with
          | h1 :: h2 :: h3 :: h4 :: r2 =>
            match hex4 h1 h2 h3 h4 with
            | some u =>
              if u < 55296 ∨ 57344 ≤ u then consStr (Char.ofNat u) (parseStrBody fuel r2)
              else if u ≤ 56319 then
                match r2 with
                | b1 :: b2 :: g1 :: g2 :: g3 :: g4 :: r3 =>
                  if b1.toNat = 92 ∧ b2.toNat = 117 then
                    match hex4 g1 g2 g3 g4 with
                    | some u2 =>
                      if 56320 ≤ u2 ∧ u2 ≤ 57343 then
                        consStr (Char.ofNat (65536 + (u - 55296) * 1024 + (u2 - 56320)))
                          (parseStrBody fuel r3)
                      else Option.none
                    | Option.none => Option.none
                  else Option.none
                | _ => Option.none
              else Option.none
            | Option.none => Option.none
          | _ => Option.none
        else Option.none
    else if c.toNat < 32 then Option.none
    else consStr c (parseStrBody fuel rest)

/-- Scan a JSON string body with sufficient fuel for its input. -/
def parseStr (l : List Char) : Option (List Char × List Char) :=
  parseStrBody (l.length + 1) l

/-- Accumulate decimal digits left to right, stopping at the first
non-digit. -/
def parseDigits (acc : Nat) : List Char → Nat × List Char
  | [] => (acc, [])
  | c :: t =>
    if 48 ≤ c.toNat ∧ c.toNat ≤ 57 then parseDigits (acc * 10 + (c.toNat - 48)) t
    else (acc, c :: t)

/-- Parse the JSON integer part `0|[1-9][0-9]*` (a leading zero ends the
number at once, as in the `NUMBER_RE` regex). -/
def parseNatNum : List Char → Option (Nat × List Char)
  | [] => Option.none
  | c :: t =>
    if c.toNat = 48 then some (0, t)
    else if 49 ≤ c.toNat ∧ c.toNat ≤ 57 then some (parseDigits (c.toNat - 48) t)
    else Option.none

/-- Reject the number when a fraction or exponent part follows: Python
would parse a float there, which is outside this embedding (see the
module comment). -/
def floatGuard (v : Int) : List Char → Option (Int × List Char)
  | [] => some (v, [])
  | c :: t =>
    if c.toNat = 46 ∨ c.toNat = 101 ∨ c.toNat = 69 then Option.none
    else some (v, c :: t)

/-- Parse a JSON number (integers only). -/
def parseNum : List Char → Option (Int × List Char)
  | [] => Option.none
  | c :: t =>
    if c.toNat = 45 then
      match parseNatNum t with
      | some (v, r) => floatGuard (-(v : Int)) r
      | Option.none => Option.none
    else
      match parseNatNum (c :: t) with
      | some (v, r) => floatGuard (v : Int) r
      | Option.none => Option.none

mutual
/-- One step of the pure-Python `_scan_once`, positioned at a
non-whitespace character, with an explicit recursion fuel.  The
`NaN`/`Infinity` constants are rejected rather than parsed as floats
(module comment). -/
def parseVal : Nat → List Char → Option (JValue × List Char)
  | 0, _ => Option.none
  | _ + 1, [] => Option.none
  | fuel + 1, c :: t =>
    if c.toNat = 34 then
      match parseStr t with
      | some (s, r) => some (.jstr s, r)
      | Option.none => Option.none
    else if c.toNat = 123 then
      match skipWs t with
      | [] => Option.none
      | c2 :: r =>
        if c2.toNat = 125 then some (.jobj .nil, r)
        else
          match parseMembs fuel (c2 :: r) with
          | some (ms, r2) => some (.jobj (dictOfPairs ms), r2)
          | Option.none => Option.none
    else if c.toNat = 91 then
      match skipWs t with
      | [] => Option.none
      | c2 :: r =>
        if c2.toNat = 93 then some (.jarr .nil, r)
        else
          match parseElems fuel (c2 :: r) with
          | some (xs, r2) => some (.jarr xs, r2)
          | Option.none => Option.none
    else if c.toNat = 110 then
      match t with
      | u :: l1 :: l2 :: r =>
        if u.toNat = 117 ∧ l1.toNat = 108 ∧ l2.toNat = 108 then some (.jnull, r)
        else Option.none
      | _ => Option.none
    else if c.toNat = 116 then
      match t with
      | r1 :: u :: e1 :: r =>
        if r1.toNat = 114 ∧ u.toNat = 117 ∧ e1.toNat = 101 then some (.jbool true, r)
        else Option.none
      | _ => Option.none
    else if c.toNat = 102 then
      match t with
      | a1 :: l1 :: s1 :: e1 :: r =>
        if a1.toNat = 97 ∧ l1.toNat = 108 ∧ s1.toNat = 115 ∧ e1.toNat = 101 then
          some (.jbool false, r)
        else Option.none
      | _ => Option.none
    else if c.toNat = 45 ∨ (48 ≤ c.toNat ∧ c.toNat ≤ 57) then
      match parseNum (c :: t) with
      | some (v, r) => some (.jnum v, r)
      | Option.none => Option.none
    else Option.none

/-- The element loop of the pure-Python `JSONArray`, positioned at the
first character of an element. -/
def parseElems : Nat → List Char → Option (JArr × List Char)
  | 0, _ => Option.none
  | fuel + 1, l =>
    match parseVal fuel l with
    | Option.none => Option.none
    | some (v, r) =>
      match skipWs r with
      | [] => Option.none
      | c :: r2 =>
        if c.toNat = 44 then
          match parseElems fuel (skipWs r2) with
          | some (xs, r3) => some (.cons v xs, r3)
          | Option.none => Option.none
        else if c.toNat = 93 then some (.cons v .nil, r2)
        else Option.none

/-- The member loop of the pure-Python `JSONObject`, positioned at the
opening quote of a key; returns the member list in parse order (the
caller applies `dict(pairs)`). -/
def parseMembs : Nat → List Char → Option (JObj × List Char)
  | 0, _ => Option.none
  | fuel + 1, l =>
    match l with
    | [] => Option.none
    | c :: t =>
      if c.toNat = 34 then
        match parseStr t with
        | Option.none => Option.none
        | some (k, r) =>
          match skipWs r with
          | [] => Option.none
          | c2 :: r2 =>
            if c2.toNat = 58 then
              match parseVal fuel (skipWs r2) with
              | Option.none => Option.none
              | some (v, r3) =>
                match skipWs r3 with
                | [] => Option.none
                | c3 :: r4 =>
                  if c3.toNat = 44 then
                    match parseMembs fuel (skipWs r4) with
                    | some (ms, r5) => some (.cons k v ms, r5)
                    | Option.none => Option.none
                  else if c3.toNat = 125 then some (.cons k v .nil, r4)
                  else Option.none
            else Option.none
      else Option.none
end

/-- `json.loads` up to the hooks: skip leading whitespace, scan one
value, and require only whitespace to remain (else the decoder raises
its "Extra data" `JSONDecodeError`). -/
def parseTop (l : List Char) : Option JValue :=
  match parseVal (l.length + 1) (skipWs l) with
  | some (j, rest) => if skipWs rest = [] then some j else Option.none
  | Option.none => Option.none

/-- Lowercase a hex digit character. -/
def lowerHex (c : Char) : Char :=
  if 65 ≤ c.toNat ∧ c.toNat ≤ 70 then Char.ofNat (c.toNat + 32) else c

/-- `uuid.UUID(s)` reduced to what the codec needs: hyphens are
discarded and exactly 32 hex digits must remain, normalized to
lowercase; anything else raises `ValueError`.  (The `urn:uuid:` and
brace-wrapped spellings Python also strips are treated as invalid here;
the encoder only ever emits the plain hyphenated lowercase form.) -/
def normUUID (s : String) : Except PyErr (List Char) :=
  let t := s.data.filter (fun c => c.toNat ≠ 45)
  if t.length = 32 ∧ t.all (fun c => (hexVal c).isSome) then .ok (t.map lowerHex)
  else .error .valueError

/-- The level variant's tag, in the normalized form of `normUUID`. -/
def levelTagNorm : List Char := "02e59486f24d46ad82243acdf2a5732a".data

/-- The failure variant's tag, in the normalized form of `normUUID`. -/
def failureTagNorm : List Char := "e76887e220ed49bfa8f8ba25cc586f2d".data

/-- View a string-keyed mapping as a plain Python dict. -/
def pyDictOfAssoc : PyAssoc → PyDict
  | .nil => .nil
  | .cons k v t => .cons (.str k) v (pyDictOfAssoc t)

/-- The registered loader of the log-level variant,
`lambda level: getattr(LogLevel, level["name"], None)`: a missing
`"name"` raises `KeyError`, a non-string one makes `getattr` raise
`TypeError`, an unknown name yields `None`.  Note the dict it receives
still contains the `__class_uuid__` entry (`objectLoadHook` does not
remove it); this loader just ignores it. -/
def loadLevel (d : PyAssoc) : Except PyErr PyValue :=
  match d.lookup ("name") with
  | some (.str s) =>
    .ok (match levelFromName s with
         | some l => .level l
         | Option.none => .pynone)
  | some _ => .error .typeError
  | Option.none => .error .keyError

/-- `failureFromJSON(failureDict)`: take the `"type"` entry (a missing
key raises `KeyError`, subscripting a non-dict raises `TypeError`),
synthesize a stand-in type from its `"__name__"` and `"__module__"`
strings alone — no import of the original class — and install the
remaining dictionary as the new failure's `__dict__`.  The synthesized
type carries `typeInfo["__name__"]` as its name (`KeyError` when absent,
`TypeError` when not a string, as `type()` raises); its module is the
`"__module__"` string when one is present (a class synthesized without
one would report the defining module of `_json.py`; a non-string value
there is coarsened to that default).  On Python 3 the `asBytes`
byte-conversion branch is dead code and is not modelled.  The embedded
failure keeps the dict minus `"type"` as its state and the synthesized
name/module as its descriptor, mirroring
`failureDict["type"] = type(...); f.__dict__ = failureDict`. -/
def failureFromJSON (failureDict : PyAssoc) : Except PyErr PyValue :=
  match failureDict.lookup ("type") with
  | some (.dict typeInfo) =>
    match typeInfo.lookupStr ("__name__") with
    | some (.str tyName) =>
      let tyModule :=
        match typeInfo.lookupStr ("__module__") with
        | some (.str m) => m
        | _ => "twisted.python.logger._json"
      .ok (.failure (failureDict.erase ("type")) tyModule tyName)
    | some _ => .error .typeError
    | Option.none => .error .keyError
  | some _ => .error .typeError
  | Option.none => .error .keyError

/-- `objectLoadHook(aDict)`: a mapping without the type-tag field is
returned unchanged; otherwise `uuidToLoader[UUID(aDict["__class_uuid__"])]`
dispatches to the variant's loader (a malformed tag string raises
`UUID`'s `ValueError`, an unregistered tag raises the mapping lookup's
`KeyError`, a non-string tag raises in `UUID(...)` — coarsened here to
`TypeError` — and none of those are `dict`-returning).  The dict handed
to the loader still contains the tag entry. -/
def objectLoadHook (aDict : PyAssoc) : Except PyErr PyValue :=
  match aDict.lookup classUuidKey with
  | Option.none => .ok (.dict (pyDictOfAssoc aDict))
  | some (.str s) =>
    match normUUID s with
    | .ok u =>
      if u = levelTagNorm then loadLevel aDict
      else if u = failureTagNorm then failureFromJSON aDict
      else .error .keyError
    | .error e => .error e
  | some _ => .error .typeError

mutual
/-- The JSON-document-to-Python-value part of
`json.loads(..., object_hook=objectLoadHook)`: scalars map across, and
every object runs through `objectLoadHook`, innermost first, exactly as
the hook fires during recursive descent. -/
def pyOfJ : JValue → Except PyErr PyValue
  | .jnull => .ok .pynone
  | .jbool b => .ok (.bool b)
  | .jnum n => .ok (.int n)
  | .jstr s => .ok (.str (String.mk s))
  | .jarr xs =>
    match pyOfJArr xs with
    | .ok l => .ok (.list l)
    | .error e => .error e
  | .jobj xs =>
    match pyOfJObj xs with
    | .ok d => objectLoadHook d
    | .error e => .error e

/-- Elementwise decoding of an array. -/
def pyOfJArr : JArr → Except PyErr PyList
  | .nil => .ok .nil
  | .cons x t =>
    match pyOfJ x with
    | .error e => .error e
    | .ok v =>
      match pyOfJArr t with
      | .error e => .error e
      | .ok vs => .ok (.cons v vs)

/-- Member-wise decoding of an object into the string-keyed dict handed
to `objectLoadHook`. -/
def pyOfJObj : JObj → Except PyErr PyAssoc
  | .nil => .ok .nil
  | .cons k v t =>
    match pyOfJ v with
    | .error e => .error e
    | .ok v2 =>
      match pyOfJObj t with
      | .error e => .error e
      | .ok t2 => .ok (.cons (String.mk k) v2 t2)
end

/-- `eventFromJSON` on a character list. -/
def eventFromJSONChars (l : List Char) : Except PyErr PyValue :=
  match parseTop l with
  | some j => pyOfJ j
  | Option.none => .error .valueError

/-- `eventFromJSON(eventText)`:
`loads(eventText, object_hook=objectLoadHook)`. -/
def eventFromJSON (eventText : String) : Except PyErr PyValue :=
  eventFromJSONChars eventText.data

/-- Strict UTF-8 decoding of a byte sequence, as Python performs on the
`bytes` handed to `json.loads` (overlong forms, surrogates, and values
above `U+10FFFF` are rejected; a failure is a `UnicodeDecodeError`,
which is a `ValueError`).  The fuel argument only makes the recursion
structural; `utf8DecodeAll` supplies enough. -/
def utf8Decode : Nat → List Nat → Option (List Char)
  | 0, _ => Option.none
  | _ + 1, [] => some []
  | fuel + 1, b :: t =>
    if b < 128 then
      match utf8Decode fuel t with
      | some cs => some (Char.ofNat b :: cs)
      | Option.none => Option.none
    else if 194 ≤ b ∧ b ≤ 223 then
      match t with
      | c1 :: t2 =>
        if 128 ≤ c1 ∧ c1 ≤ 191 then
          match utf8Decode fuel t2 with
          | some cs => some (Char.ofNat ((b - 192) * 64 + (c1 - 128)) :: cs)
          | Option.none => Option.none
        else Option.none
      | [] => Option.none
    else if 224 ≤ b ∧ b ≤ 239 then
      match t with
      | c1 :: c2 :: t2 =>
        if (if b = 224 then 160 else 128) ≤ c1 ∧ c1 ≤ (if b = 237 then 159 else 191) ∧
            128 ≤ c2 ∧ c2 ≤ 191 then
          match utf8Decode fuel t2 with
          | some cs =>
            some (Char.ofNat ((b - 224) * 4096 + (c1 - 128) * 64 + (c2 - 128)) :: cs)
          | Option.none => Option.none
        else Option.none
      | _ => Option.none
    else if 240 ≤ b ∧ b ≤ 244 then
      match t with
      | c1 :: c2 :: c3 :: t2 =>
        if (if b = 240 then 144 else 128) ≤ c1 ∧ c1 ≤ (if b = 244 then 143 else 191) ∧
            128 ≤ c2 ∧ c2 ≤ 191 ∧ 128 ≤ c3 ∧ c3 ≤ 191 then
          match utf8Decode fuel t2 with
          | some cs =>
            some (Char.ofNat
              ((b - 240) * 262144 + (c1 - 128) * 4096 + (c2 - 128) * 64 + (c3 - 128)) :: cs)
          | Option.none => Option.none
        else Option.none
      | _ => Option.none
    else Option.none

/-- Strict UTF-8 decoding of a whole byte list (fuel as in
`parseStrBody`: any amount above the input length is enough). -/
def utf8DecodeAll (b : List Nat) : Option (List Char) :=
  utf8Decode (b.length + 1) b

/-- `eventFromJSON(bytes(record))`: `json.loads` first decodes the
bytes as UTF-8 (failure: `UnicodeDecodeError`, a `ValueError`). -/
def eventFromJSONBytes (record : List Nat) : Except PyErr PyValue :=
  match utf8DecodeAll record with
  | some cs => eventFromJSONChars cs
  | Option.none => .error .valueError

/-- The observable outcome of `eventFromRecord(record)` inside
`eventsFromJSONLogFile`: an event to yield, a skip (with or without the
`log.error` diagnostic), or an uncaught exception propagating out of
the generator. -/
inductive RecResult where
  | ev (e : PyValue)
  | skip (diag : Bool)
  | raised (err : PyErr)
deriving Repr

/-- `record and record[-1] == 10`. -/
def endsWithLF (record : List Nat) : Bool :=
  record.getLast? = some 10

/-- The inner `eventFromRecord(record)`: a record that is empty or
lacks its trailing line feed is skipped silently (the function falls
through to `None`); otherwise the record is decoded, a `ValueError`
is caught and reported via `log.error` (one diagnostic), and any other
exception — such as the `KeyError` of an unknown type tag — escapes. -/
def eventFromRecord (record : List Nat) : RecResult :=
  if endsWithLF record then
    match eventFromJSONBytes record with
    | .ok e => .ev e
    | .error er => if er = .valueError then .skip true else .raised er
  else .skip false

/-- `bytes.split(sep)` for a one-byte separator: the pieces between
separator occurrences, in order (`b""` splits to `[b""]`). -/
def splitOnByte (sep : Nat) : List Nat → List (List Nat)
  | [] => [[]]
  | b :: t =>
    match splitOnByte sep t with
    | [] => [[]]
    | p :: ps => if b = sep then [] :: p :: ps else (b :: p) :: ps

/-- What one run of `eventsFromJSONLogFile` produces: the events
yielded in order, the number of `log.error` diagnostics, and the
exception that aborted the iteration, if any. -/
structure StreamOut where
  events : List PyValue
  diags : Nat
  err : Option PyErr
deriving Repr

/-- Process a list of complete records (`for record in records[:-1]`):
yield decoded events, count diagnostics, and stop at the first record
whose decoding raises an uncaught exception. -/
def processRecords : List (List Nat) → List PyValue × Nat × Option PyErr
  | [] => ([], 0, Option.none)
  | r :: rs =>
    match eventFromRecord r with
    | .raised e => ([], 0, some e)
    | .ev e =>
      match processRecords rs with
      | (es, d, er) => (e :: es, d, er)
    | .skip dg =>
      match processRecords rs with
      | (es, d, er) => (es, (if dg then 1 else 0) + d, er)

/-- End-of-data handling of `eventsFromJSONLogFile`: the remaining
buffer is treated as one final record and the loop breaks. -/
def finishBuffer (buf : List Nat) : StreamOut :=
  match eventFromRecord buf with
  | .ev e => ⟨[e], 0, Option.none⟩
  | .skip dg => ⟨[], if dg then 1 else 0, Option.none⟩
  | .raised e => ⟨[], 0, some e⟩

/-- The read loop of `eventsFromJSONLogFile`, with the input file
modelled as the list of successive `inFile.read(4096)` results, in
UTF-8 byte form (the code reads text and appends
`newData.encode("utf-8")` to its `bytearray`; an empty read means end
of data).  Each read is appended to the buffer, the buffer is split on
the `0x1e` record separator, all pieces but the last are processed as
complete records, and the last piece becomes the new buffer. -/
def runFramer : List Nat → List (List Nat) → StreamOut
  | buf, [] => finishBuffer buf
  | buf, c :: rest =>
    if c = [] then finishBuffer buf
    else
      match processRecords (splitOnByte 30 (buf ++ c)).dropLast with
      | (es, d, some e) => ⟨es, d, some e⟩
      | (es, d, Option.none) =>
        match runFramer ((splitOnByte 30 (buf ++ c)).getLastD []) rest with
        | out => ⟨es ++ out.events, d + out.diags, out.err⟩

/-- `eventsFromJSONLogFile(inFile)`, run to exhaustion on the given
reads. -/
def eventsFromJSONLogFile (reads : List (List Nat)) : StreamOut :=
  runFramer [] reads

/-- ASCII bytes of a string (for concrete byte-stream inputs). -/
def asciiBytes (s : String) : List Nat := s.data.map Char.toNat

/-- The file-backed credential store `FilePasswordDB`, for the
plaintext (`hash=None`), uncached (`cache=False`) configuration the
claims exercise; the backing file is given by its byte contents.  The
delimiter is one byte (the default `b":"` is byte 58). -/
structure FilePasswordDB where
  fileBytes : List Nat
  delim : Nat := 58
  ufield : Nat := 0
  pfield : Nat := 1
  caseSensitive : Bool := true
deriving Repr

/-- Iterating a binary-mode Python file yields chunks ending after each
line feed; a trailing chunk without a line feed is still yielded, an
empty trailing chunk is not. -/
def pyLines : List Nat → List (List Nat)
  | [] => []
  | b :: t =>
    if b = 10 then [10] :: pyLines t
    else
      match pyLines t with
      | [] => [[b]]
      | l :: ls => (b :: l) :: ls

/-- `bytes.rstrip()`: drop trailing ASCII whitespace bytes. -/
def rstrip (l : List Nat) : List Nat :=
  (l.reverse.dropWhile (fun b => b = 32 || b = 9 || b = 10 || b = 11 || b = 12 || b = 13)).reverse

/-- `bytes.lower()`: ASCII lowercase. -/
def lowerBytes (l : List Nat) : List Nat :=
  l.map (fun b => if 65 ≤ b ∧ b ≤ 90 then b + 32 else b)

namespace FilePasswordDB

/-- The credentials one line contributes in `_loadCredentials`: the
line is stripped of trailing whitespace and split on the delimiter; a
line with too few fields to reach the username or password index is
skipped (`continue`), otherwise the username (lowercased when the
store is case-insensitive) and password fields are yielded. -/
def lineCred (db : FilePasswordDB) (line : List Nat) : Option (List Nat × List Nat) :=
  let parts := splitOnByte db.delim (rstrip line)
  if db.ufield ≥ parts.length ∨ db.pfield ≥ parts.length then Option.none
  else
    some ((if db.caseSensitive then parts.getD db.ufield []
           else lowerBytes (parts.getD db.ufield [])),
          parts.getD db.pfield [])

/-- `_loadCredentials(self)`: the couples yielded over the whole file.
(The `IOError` branch — an unreadable file — is outside this model,
which is given the file contents directly.) -/
def loadCredentials (db : FilePasswordDB) : List (List Nat × List Nat) :=
  (pyLines db.fileBytes).filterMap db.lineCred

/-- `getUser(self, username)` in the uncached configuration: scan the
loaded credentials for the (canonicalized) username and return the
first match, else raise `KeyError`. -/
def getUser (db : FilePasswordDB) (username : List Nat) :
    Except PyErr (List Nat × List Nat) :=
  let u := if db.caseSensitive then username else lowerBytes username
  match (loadCredentials db).find? (fun p => p.1 = u) with
  | some p => .ok p
  | Option.none => .error .keyError

end FilePasswordDB

/-- The character after a printed number in any position the printer
emits: not a digit and not a fraction or exponent starter. -/
def numBoundary : List Char → Prop
  | [] => True
  | c :: _ =>
    ¬(48 ≤ c.toNat ∧ c.toNat ≤ 57) ∧ c.toNat ≠ 46 ∧ c.toNat ≠ 101 ∧ c.toNat ≠ 69

/-- No key occurs twice (object keys, as character lists). -/
def keysNodup : List (List Char) → Bool
  | [] => true
  | k :: t => !(t.contains k) && keysNodup t

mutual
/-- Fuel needed by `parseVal` to scan the printed form of a document. -/
def jsizeF : JValue → Nat
  | .jnull => 1
  | .jbool _ => 1
  | .jnum _ => 1
  | .jstr _ => 1
  | .jarr xs => 1 + asizeF xs
  | .jobj xs => 1 + osizeF xs

/-- Fuel needed by `parseElems` for a printed element list. -/
def asizeF : JArr → Nat
  | .nil => 0
  | .cons x t => 1 + jsizeF x + asizeF t

/-- Fuel needed by `parseMembs` for a printed member list. -/
def osizeF : JObj → Nat
  | .nil => 0
  | .cons _ v t => 1 + jsizeF v + osizeF t
end

mutual
/-- Well-formedness of a JSON document as a parse result: every object
has distinct keys (a Python dict can hold each key once). -/
def jwfB : JValue → Bool
  | .jnull => true
  | .jbool _ => true
  | .jnum _ => true
  | .jstr _ => true
  | .jarr xs => awfB xs
  | .jobj xs => keysNodup xs.keys && owfB xs

/-- Well-formedness of every element. -/
def awfB : JArr → Bool
  | .nil => true
  | .cons x t => jwfB x && awfB t

/-- Well-formedness of every member value. -/
def owfB : JObj → Bool
  | .nil => true
  | .cons _ v t => jwfB v && owfB t
end

/-- True when some entry of the dict has the given text as its key. -/
def hasStrKey (s : String) : PyDict → Bool
  | .nil => false
  | .cons k _ t =>
    (match k with
     | .str s2 => s2 = s
     | _ => false) || hasStrKey s t

mutual
/-- A value is native-representable in the sense of the round-trip
claim: text, integers, booleans, `None`, and sequences/mappings
thereof, where every mapping has text keys, no duplicated key, and no
occurrence of the reserved `__class_uuid__` key. -/
def nativeOkV : PyValue → Bool
  | .str _ => true
  | .int _ => true
  | .bool _ => true
  | .pynone => true
  | .list xs => nativeOkL xs
  | .dict xs => nativeOkD xs
  | _ => false

/-- Native-representability of every element. -/
def nativeOkL : PyList → Bool
  | .nil => true
  | .cons x t => nativeOkV x && nativeOkL t

/-- Native-representability of a dict (text keys, no duplicate, no
reserved key, native values). -/
def nativeOkD : PyDict → Bool
  | .nil => true
  | .cons k v t =>
    (match k with
     | .str s => !(s == classUuidKey) && !(hasStrKey s t)
     | _ => false) && nativeOkV v && nativeOkD t
end

/-- A native dict viewed as the string-keyed mapping `json.loads`
rebuilds (non-text keys cannot occur in a native dict). -/
def assocOfNativeDict : PyDict → PyAssoc
  | .nil => .nil
  | .cons k v t =>
    match k with
    | .str s => .cons s v (assocOfNativeDict t)
    | _ => assocOfNativeDict t

/-- `failureAsJSON(failure)`:
`dict(failure.__getstate__(), type=dict(__module__=..., __name__=...))` —
the captured state with its `type` entry set (replaced in place, or
appended) to the serializable descriptor of the failure's type.
Modelled from the spec: `Failure.__getstate__` (in
`twisted/python/failure.py`, not under `src/`) returns the failure's
captured state mapping (spec section 4.1), embedded here as the
`state` field of `PyValue.failure`. -/
def failureAsJSON (state : PyAssoc) (tyModule tyName : String) : PyAssoc :=
  state.set ("type")
    (.dict (.cons (.str ("__module__")) (.str tyModule)
      (.cons (.str ("__name__")) (.str tyName) .nil)))

def c4State : PyAssoc := .cons ("message") (.str ("boom")) .nil

def c7Dict : PyAssoc :=
  .cons classUuidKey (.str failureTagText)
    (.cons ("type")
      (.dict (.cons (.str ("__module__")) (.str ("m"))
        (.cons (.str ("__name__")) (.str ("E")) .nil)))
      (.cons ("message") (.str ("boom")) .nil))

def c1Dict : PyDict :=
  .cons (.str ("a")) (.int 1)
    (.cons (.str ("b"))
      (.list (.cons (.bool true) (.cons .pynone (.cons (.str ("x\ny")) .nil))))
      .nil)

def c1CexEvent : PyValue :=
  .dict (.cons (.str ("k"))
    (.dict (.cons (.str (classUuidKey)) (.str ("x")) .nil)) .nil)

def c3Zero : String := "00000000-0000-0000-0000-000000000000"

def c3r1 : List Nat := [123, 34, 97, 34, 58, 32, 34, 120, 34, 125, 10]

def c3r2 : List Nat :=
  [123, 34] ++ asciiBytes ("__class_uuid__") ++ [34, 58, 32, 34] ++
    asciiBytes (c3Zero) ++ [34, 125, 10]

def c3r3 : List Nat := [123, 125, 10]

def c2Stream : List Nat := [30, 123, 125, 10]

def c6r1 : List Nat := [123, 34, 98, 34, 58, 32, 49, 125, 10]

def c6r2 : List Nat := [122, 111, 114, 112, 10]

def c6r3 : List Nat := [123, 125, 10]

def c9db : FilePasswordDB := ⟨asciiBytes ("alice:secret\n"), 58, 0, 1, true⟩

def c10db : FilePasswordDB := ⟨asciiBytes ("alice\nbob:pw\n"), 58, 0, 1, true⟩

theorem splitOnByte_ne_nil (sep : Nat) (l : List Nat) : splitOnByte sep l ≠ [] := by
  cases l with
  | nil => simp [splitOnByte]
  | cons b t =>
    simp only [splitOnByte]
    cases h : splitOnByte sep t with
    | nil => simp
    | cons p ps => by_cases hb : b = sep <;> simp [hb]

theorem splitOnByte_cons_sep (sep : Nat) (l : List Nat) :
    splitOnByte sep (sep :: l) = [] :: splitOnByte sep l := by
  simp only [splitOnByte]
  cases h : splitOnByte sep l with
  | nil => exact absurd h (splitOnByte_ne_nil sep l)
  | cons p ps => simp

theorem splitOnByte_cons_ne (sep b : Nat) (l : List Nat) (hb : b ≠ sep) :
    splitOnByte sep (b :: l) =
      (b :: (splitOnByte sep l).headD []) :: (splitOnByte sep l).tail := by
  simp only [splitOnByte]
  cases h : splitOnByte sep l with
  | nil => exact absurd h (splitOnByte_ne_nil sep l)
  | cons p ps => simp [hb]

theorem splitOnByte_append (sep : Nat) (x y : List Nat) (h : List Nat)
    (t : List (List Nat)) (hy : splitOnByte sep y = h :: t) :
    splitOnByte sep (x ++ y) =
      (splitOnByte sep x).dropLast ++
        ((splitOnByte sep x).getLastD [] ++ h) :: t := by
  induction x with
  | nil => simpa [splitOnByte] using hy
  | cons b x ih =>
    by_cases hb : b = sep
    · subst hb
      rw [List.cons_append, splitOnByte_cons_sep, splitOnByte_cons_sep, ih]
      rcases hx : splitOnByte b x with _ | ⟨q, qs⟩
      · exact absurd hx (splitOnByte_ne_nil b x)
      · simp
    · rw [List.cons_append, splitOnByte_cons_ne sep b _ hb, splitOnByte_cons_ne sep b _ hb, ih]
      rcases hx : splitOnByte sep x with _ | ⟨q, qs⟩
      · exact absurd hx (splitOnByte_ne_nil sep x)
      · cases qs with
        | nil => simp
        | cons q2 qs2 => simp

theorem splitOnByte_nosep (sep : Nat) (r : List Nat) (hr : sep ∉ r) :
    splitOnByte sep r = [r] := by
  induction r with
  | nil => simp [splitOnByte]
  | cons b t ih =>
    have hb : b ≠ sep := by rintro rfl; exact hr (List.mem_cons_self _ _)
    rw [splitOnByte_cons_ne sep b t hb, ih (fun hm => hr (List.mem_cons_of_mem _ hm))]
    simp

theorem splitOnByte_getLastD_nosep (sep : Nat) (l : List Nat) :
    sep ∉ (splitOnByte sep l).getLastD [] := by
  induction l with
  | nil => simp [splitOnByte]
  | cons b t ih =>
    by_cases hb : b = sep
    · subst hb
      rw [splitOnByte_cons_sep]
      rcases hx : splitOnByte b t with _ | ⟨q, qs⟩
      · exact absurd hx (splitOnByte_ne_nil b t)
      · rw [hx] at ih; simpa using ih
    · rw [splitOnByte_cons_ne sep b t hb]
      rcases hx : splitOnByte sep t with _ | ⟨q, qs⟩
      · exact absurd hx (splitOnByte_ne_nil sep t)
      · rw [hx] at ih
        cases qs with
        | nil =>
          simp only [List.headD_cons, List.tail_cons, List.getLastD_cons, List.getLastD_nil] at *
          intro hmem
          rcases List.mem_cons.mp hmem with he | hm
          · exact hb he.symm
          · exact ih hm
        | cons q2 qs2 => simpa using ih

theorem processRecords_append_some (l1 l2 : List (List Nat)) (es : List PyValue)
    (d : Nat) (e : PyErr) (h : processRecords l1 = (es, d, some e)) :
    processRecords (l1 ++ l2) = (es, d, some e) := by
  induction l1 generalizing es d with
  | nil => simp [processRecords] at h
  | cons r rs ih =>
    rcases hre : eventFromRecord r with e2 | dg | e2 <;>
      rcases hrs : processRecords rs with ⟨es1, d1, er1⟩ <;>
      simp only [processRecords, hre, hrs, List.cons_append, List.append_eq,
        Prod.mk.injEq] at h ⊢
    · obtain ⟨rfl, rfl, rfl⟩ := h
      rw [ih _ _ hrs]
      simp
    · obtain ⟨rfl, rfl, rfl⟩ := h
      rw [ih _ _ hrs]
      simp
    · obtain ⟨rfl, rfl, h3⟩ := h
      obtain rfl := Option.some.inj h3
      simp

theorem processRecords_append_none (l1 l2 : List (List Nat)) (es : List PyValue)
    (d : Nat) (h : processRecords l1 = (es, d, Option.none)) :
    processRecords (l1 ++ l2) =
      (es ++ (processRecords l2).1, d + (processRecords l2).2.1, (processRecords l2).2.2) := by
  induction l1 generalizing es d with
  | nil =>
    simp only [processRecords, Prod.mk.injEq] at h
    obtain ⟨rfl, rfl, -⟩ := h
    simp
  | cons r rs ih =>
    rcases hre : eventFromRecord r with e2 | dg | e2 <;>
      rcases hrs : processRecords rs with ⟨es1, d1, er1⟩ <;>
      simp only [processRecords, hre, hrs, List.cons_append, List.append_eq,
        Prod.mk.injEq] at h ⊢
    · obtain ⟨rfl, rfl, rfl⟩ := h
      rw [ih _ _ hrs]
      simp
    · obtain ⟨rfl, rfl, rfl⟩ := h
      rw [ih _ _ hrs]
      simp [Nat.add_assoc]
    · exact absurd h.2.2 (by simp)

theorem getLastD_append_of_ne_nil (l1 l2 : List (List Nat)) (h : l2 ≠ []) :
    (l1 ++ l2).getLastD [] = l2.getLastD [] := by
  rw [List.getLastD_eq_getLast?, List.getLastD_eq_getLast?,
    List.getLast?_append_of_ne_nil _ h]

theorem runFramer_merge (buf A B : List Nat) (rest : List (List Nat))
    (hA : A ≠ []) (hB : B ≠ []) :
    runFramer buf (A :: B :: rest) = runFramer buf ((A ++ B) :: rest) := by
  obtain ⟨h, t, hy⟩ : ∃ h t, splitOnByte 30 B = h :: t := by
    cases hx : splitOnByte 30 B with
    | nil => exact absurd hx (splitOnByte_ne_nil 30 B)
    | cons p ps => exact ⟨p, ps, rfl⟩
  have hL1 : (30 : Nat) ∉ (splitOnByte 30 (buf ++ A)).getLastD [] :=
    splitOnByte_getLastD_nosep 30 (buf ++ A)
  have hsplitL1B :
      splitOnByte 30 ((splitOnByte 30 (buf ++ A)).getLastD [] ++ B) =
        ((splitOnByte 30 (buf ++ A)).getLastD [] ++ h) :: t := by
    rw [splitOnByte_append 30 _ B h t hy, splitOnByte_nosep 30 _ hL1]
    simp
  have hbig :
      splitOnByte 30 (buf ++ (A ++ B)) =
        (splitOnByte 30 (buf ++ A)).dropLast ++
          splitOnByte 30 ((splitOnByte 30 (buf ++ A)).getLastD [] ++ B) := by
    rw [hsplitL1B, ← List.append_assoc]
    exact splitOnByte_append 30 (buf ++ A) B h t hy
  have hAB : A ++ B ≠ [] := by
    intro h0
    exact hA (List.append_eq_nil.mp h0).1
  rcases hp1 : processRecords (splitOnByte 30 (buf ++ A)).dropLast with ⟨es, d, er⟩
  have hdrop :
      (splitOnByte 30 (buf ++ (A ++ B))).dropLast =
        (splitOnByte 30 (buf ++ A)).dropLast ++
          (splitOnByte 30 ((splitOnByte 30 (buf ++ A)).getLastD [] ++ B)).dropLast := by
    rw [hbig, List.dropLast_append_of_ne_nil _ (splitOnByte_ne_nil _ _)]
  have hlast :
      (splitOnByte 30 (buf ++ (A ++ B))).getLastD [] =
        (splitOnByte 30 ((splitOnByte 30 (buf ++ A)).getLastD [] ++ B)).getLastD [] := by
    rw [hbig, getLastD_append_of_ne_nil _ _ (splitOnByte_ne_nil _ _)]
  cases er with
  | some e =>
    simp only [runFramer, if_neg hA, if_neg hAB, hp1, hdrop,
      processRecords_append_some _ _ _ _ _ hp1]
  | none =>
    rcases hp2 : processRecords
        (splitOnByte 30 ((splitOnByte 30 (buf ++ A)).getLastD [] ++ B)).dropLast
      with ⟨es2, d2, er2⟩
    cases er2 with
    | some e2 =>
      simp only [runFramer, if_neg hA, if_neg hAB, if_neg hB, hp1, hp2, hdrop,
        processRecords_append_none _ _ _ _ hp1, hp2]
    | none =>
      simp only [runFramer, if_neg hA, if_neg hAB, if_neg hB, hp1, hp2, hdrop, hlast,
        processRecords_append_none _ _ _ _ hp1, hp2]
      simp [List.append_assoc, Nat.add_assoc]

theorem runFramer_trailing_empty (buf c : List Nat) :
    runFramer buf [c, []] = runFramer buf [c] := by
  by_cases hc : c = []
  · subst hc
    simp [runFramer]
  · simp only [runFramer, if_neg hc]
    rcases hp : processRecords (splitOnByte 30 (buf ++ c)).dropLast with ⟨es, d, er⟩
    cases er <;> simp

/-- C2 (corrected): splitting a byte stream into two reads at any
positive offset yields the same framer output as a single read (at
offset 0 the empty first read is taken for end-of-file, see the
counterexample). -/
theorem eventsFromJSONLogFile_split_two (S : List Nat) (k : Nat) (hk : 0 < k) :
    eventsFromJSONLogFile [S.take k, S.drop k] = eventsFromJSONLogFile [S] := by
  by_cases hd : S.drop k = []
  · have ht : S.take k = S := by
      have h2 := List.take_append_drop k S
      rw [hd, List.append_nil] at h2
      exact h2
    rw [hd, ht]
    exact runFramer_trailing_empty [] S
  · have htne : S.take k ≠ [] := by
      intro h0
      apply hd
      cases S with
      | nil => simp
      | cons a s =>
        cases k with
        | zero => omega
        | succ k2 => simp at h0
    calc eventsFromJSONLogFile [S.take k, S.drop k]
        = eventsFromJSONLogFile [S.take k ++ S.drop k] :=
          runFramer_merge [] _ _ [] htne hd
      _ = eventsFromJSONLogFile [S] := by rw [List.take_append_drop]

theorem splitOnByte_nosep_prepend (sep : Nat) (r y : List Nat) (hr : sep ∉ r)
    (h : List Nat) (t : List (List Nat)) (hy : splitOnByte sep y = h :: t) :
    splitOnByte sep (r ++ y) = (r ++ h) :: t := by
  rw [splitOnByte_append sep r y h t hy, splitOnByte_nosep sep r hr]
  simp

theorem splitOnByte_three (r1 r2 r3 : List Nat)
    (h1 : (30 : Nat) ∉ r1) (h2 : (30 : Nat) ∉ r2) (h3 : (30 : Nat) ∉ r3) :
    splitOnByte 30 (30 :: (r1 ++ (30 :: (r2 ++ (30 :: r3))))) = [[], r1, r2, r3] := by
  have e3 : splitOnByte 30 ((30 : Nat) :: r3) = [[], r3] := by
    rw [splitOnByte_cons_sep, splitOnByte_nosep 30 r3 h3]
  have e2 : splitOnByte 30 (r2 ++ (30 :: r3)) = [r2, r3] := by
    rw [splitOnByte_nosep_prepend 30 r2 _ h2 [] [r3] e3]
    simp
  have e2b : splitOnByte 30 ((30 : Nat) :: (r2 ++ (30 :: r3))) = [[], r2, r3] := by
    rw [splitOnByte_cons_sep, e2]
  have e1 : splitOnByte 30 (r1 ++ (30 :: (r2 ++ (30 :: r3)))) = [r1, r2, r3] := by
    rw [splitOnByte_nosep_prepend 30 r1 _ h1 [] [r2, r3] e2b]
    simp
  rw [splitOnByte_cons_sep, e1]

theorem eventFromRecord_ev (r : List Nat) (e : PyValue) (h1 : endsWithLF r = true)
    (h2 : eventFromJSONBytes r = .ok e) : eventFromRecord r = .ev e := by
  simp [eventFromRecord, h1, h2]

theorem eventFromRecord_diag (r : List Nat) (h1 : endsWithLF r = true)
    (h2 : eventFromJSONBytes r = .error .valueError) : eventFromRecord r = .skip true := by
  simp [eventFromRecord, h1, h2]

theorem eventFromRecord_raised (r : List Nat) (er : PyErr) (h1 : endsWithLF r = true)
    (h2 : eventFromJSONBytes r = .error er) (h3 : er ≠ .valueError) :
    eventFromRecord r = .raised er := by
  simp [eventFromRecord, h1, h2, h3]

theorem eventFromRecord_nil : eventFromRecord [] = .skip false := rfl

/-- C6: a three-record stream whose middle record's bytes fail to parse
as JSON (a `ValueError`): the reader yields exactly the two valid
events, in order, and logs exactly one diagnostic. -/
theorem framer_three_diag (r1 r2 r3 : List Nat) (e1 e3 : PyValue)
    (h1sep : (30 : Nat) ∉ r1) (h2sep : (30 : Nat) ∉ r2) (h3sep : (30 : Nat) ∉ r3)
    (h1lf : endsWithLF r1 = true) (h1ok : eventFromJSONBytes r1 = .ok e1)
    (h2lf : endsWithLF r2 = true) (h2bad : eventFromJSONBytes r2 = .error .valueError)
    (h3lf : endsWithLF r3 = true) (h3ok : eventFromJSONBytes r3 = .ok e3) :
    eventsFromJSONLogFile [[30] ++ r1 ++ [30] ++ r2 ++ [30] ++ r3] =
      ⟨[e1, e3], 1, Option.none⟩ := by
  have hshape : [30] ++ r1 ++ [30] ++ r2 ++ [30] ++ r3 =
      30 :: (r1 ++ (30 :: (r2 ++ (30 :: r3)))) := by
    simp
  rw [hshape]
  have hS : (30 : Nat) :: (r1 ++ (30 :: (r2 ++ (30 :: r3)))) ≠ [] := by simp
  simp only [eventsFromJSONLogFile, runFramer, if_neg hS, List.nil_append,
    splitOnByte_three r1 r2 r3 h1sep h2sep h3sep]
  simp only [List.dropLast, List.getLastD_cons, List.getLastD_nil]
  simp only [processRecords, eventFromRecord_nil,
    eventFromRecord_ev r1 e1 h1lf h1ok, eventFromRecord_diag r2 h2lf h2bad]
  simp [finishBuffer, eventFromRecord_ev r3 e3 h3lf h3ok]

/-- A three-record stream whose middle record decodes to an exception
that is not a `ValueError` (such as the `KeyError` of an unregistered
type tag): the iteration yields the first event, reports nothing, and
aborts with that exception — the third record is never yielded. -/
theorem framer_three_raised (r1 r2 r3 : List Nat) (e1 : PyValue) (er : PyErr)
    (h1sep : (30 : Nat) ∉ r1) (h2sep : (30 : Nat) ∉ r2) (h3sep : (30 : Nat) ∉ r3)
    (h1lf : endsWithLF r1 = true) (h1ok : eventFromJSONBytes r1 = .ok e1)
    (h2lf : endsWithLF r2 = true) (h2bad : eventFromJSONBytes r2 = .error er)
    (hner : er ≠ .valueError) :
    eventsFromJSONLogFile [[30] ++ r1 ++ [30] ++ r2 ++ [30] ++ r3] =
      ⟨[e1], 0, some er⟩ := by
  have hshape : [30] ++ r1 ++ [30] ++ r2 ++ [30] ++ r3 =
      30 :: (r1 ++ (30 :: (r2 ++ (30 :: r3)))) := by
    simp
  rw [hshape]
  have hS : (30 : Nat) :: (r1 ++ (30 :: (r2 ++ (30 :: r3)))) ≠ [] := by simp
  simp only [eventsFromJSONLogFile, runFramer, if_neg hS, List.nil_append,
    splitOnByte_three r1 r2 r3 h1sep h2sep h3sep]
  simp only [List.dropLast, List.getLastD_cons, List.getLastD_nil]
  simp [processRecords, eventFromRecord_nil,
    eventFromRecord_ev r1 e1 h1lf h1ok, eventFromRecord_raised r2 er h2lf h2bad hner]

theorem charToNat_ofNat (n : Nat) (h : n.isValidChar) : (Char.ofNat n).toNat = n := by
  simp only [Char.ofNat, h, dif_pos]
  rfl

theorem charToNat_ofNat_small (n : Nat) (h : n < 55296) : (Char.ofNat n).toNat = n :=
  charToNat_ofNat n (Or.inl h)

theorem hexDigit_toNat (n : Nat) (h : n < 16) :
    (hexDigit n).toNat = if n < 10 then 48 + n else 87 + n := by
  unfold hexDigit
  by_cases h10 : n < 10 <;> simp only [h10, if_true, if_false, ite_true, ite_false] <;>
    rw [charToNat_ofNat_small _ (by omega)]

theorem hexDigit_not_lf (n : Nat) (h : n < 16) : (hexDigit n).toNat ≠ 10 := by
  rw [hexDigit_toNat n h]
  by_cases h10 : n < 10 <;> simp [h10] <;> omega

theorem ucode_not_lf (n : Nat) : ∀ x ∈ ucode n, x.toNat ≠ 10 := by
  intro x hx
  simp only [ucode, List.mem_cons, List.not_mem_nil, or_false] at hx
  rcases hx with rfl | rfl | rfl | rfl | rfl | rfl
  · decide
  · decide
  · exact hexDigit_not_lf _ (Nat.mod_lt _ (by omega))
  · exact hexDigit_not_lf _ (Nat.mod_lt _ (by omega))
  · exact hexDigit_not_lf _ (Nat.mod_lt _ (by omega))
  · exact hexDigit_not_lf _ (Nat.mod_lt _ (by omega))

theorem escapeChar_not_lf (c : Char) : ∀ x ∈ escapeChar c, x.toNat ≠ 10 := by
  intro x hx
  unfold escapeChar at hx
  split_ifs at hx with h1 h2 h3 h4 h5 h6 h7 h8 h9
  · rcases List.mem_cons.mp hx with rfl | hx2
    · decide
    · simp at hx2; subst hx2; decide
  · rcases List.mem_cons.mp hx with rfl | hx2
    · decide
    · simp at hx2; subst hx2; decide
  · rcases List.mem_cons.mp hx with rfl | hx2
    · decide
    · simp at hx2; subst hx2; decide
  · rcases List.mem_cons.mp hx with rfl | hx2
    · decide
    · simp at hx2; subst hx2; decide
  · rcases List.mem_cons.mp hx with rfl | hx2
    · decide
    · simp at hx2; subst hx2; decide
  · rcases List.mem_cons.mp hx with rfl | hx2
    · decide
    · simp at hx2; subst hx2; decide
  · rcases List.mem_cons.mp hx with rfl | hx2
    · decide
    · simp at hx2; subst hx2; decide
  · exact ucode_not_lf _ x hx
  · rcases List.mem_append.mp hx with hx2 | hx2
    · exact ucode_not_lf _ x hx2
    · exact ucode_not_lf _ x hx2
  · simp only [List.mem_singleton] at hx
    subst hx
    omega

theorem escapeStr_not_lf (s : List Char) : ∀ x ∈ escapeStr s, x.toNat ≠ 10 := by
  induction s with
  | nil => simp [escapeStr]
  | cons c t ih =>
    intro x hx
    rcases List.mem_append.mp hx with hx2 | hx2
    · exact escapeChar_not_lf c x hx2
    · exact ih x hx2

theorem natDigitsAux_not_lf (fuel n : Nat) : ∀ x ∈ natDigitsAux fuel n, x.toNat ≠ 10 := by
  induction fuel generalizing n with
  | zero => simp [natDigitsAux]
  | succ f ih =>
    intro x hx
    unfold natDigitsAux at hx
    split_ifs at hx with h10
    · simp only [List.mem_singleton] at hx
      subst hx
      rw [charToNat_ofNat_small _ (by omega)]
      omega
    · rcases List.mem_append.mp hx with hx2 | hx2
      · exact ih _ x hx2
      · simp only [List.mem_singleton] at hx2
        subst hx2
        rw [charToNat_ofNat_small _ (by omega)]
        have := Nat.mod_lt n (show 0 < 10 by omega)
        omega

theorem printInt_not_lf (n : Int) : ∀ x ∈ printInt n, x.toNat ≠ 10 := by
  intro x hx
  unfold printInt at hx
  split_ifs at hx
  · rcases List.mem_cons.mp hx with rfl | hx2
    · decide
    · exact natDigitsAux_not_lf _ _ x hx2
  · exact natDigitsAux_not_lf _ _ x hx

mutual
theorem printJ_not_lf (j : JValue) : ∀ x ∈ printJ j, x.toNat ≠ 10 := by
  cases j with
  | jnull => intro x hx; fin_cases hx <;> decide
  | jbool b =>
    cases b with
    | true => intro x hx; fin_cases hx <;> decide
    | false => intro x hx; fin_cases hx <;> decide
  | jnum n => exact printInt_not_lf n
  | jstr s =>
    intro x hx
    rcases List.mem_cons.mp hx with rfl | hx2
    · decide
    · rcases List.mem_append.mp hx2 with hx3 | hx3
      · exact escapeStr_not_lf s x hx3
      · simp only [List.mem_singleton] at hx3; subst hx3; decide
  | jarr xs =>
    intro x hx
    rcases List.mem_cons.mp hx with rfl | hx2
    · decide
    · rcases List.mem_append.mp hx2 with hx3 | hx3
      · exact printArr_not_lf xs x hx3
      · simp only [List.mem_singleton] at hx3; subst hx3; decide
  | jobj xs =>
    intro x hx
    rcases List.mem_cons.mp hx with rfl | hx2
    · decide
    · rcases List.mem_append.mp hx2 with hx3 | hx3
      · exact printObj_not_lf xs x hx3
      · simp only [List.mem_singleton] at hx3; subst hx3; decide

theorem printArr_not_lf (xs : JArr) : ∀ x ∈ printArr xs, x.toNat ≠ 10 := by
  cases xs with
  | nil => simp [printArr]
  | cons v t =>
    cases t with
    | nil => exact printJ_not_lf v
    | cons y t2 =>
      intro x hx
      rcases List.mem_append.mp hx with hx2 | hx2
      · exact printJ_not_lf v x hx2
      · rcases List.mem_cons.mp hx2 with rfl | hx3
        · decide
        · rcases List.mem_cons.mp hx3 with rfl | hx4
          · decide
          · exact printArr_not_lf (.cons y t2) x hx4

theorem printObj_not_lf (xs : JObj) : ∀ x ∈ printObj xs, x.toNat ≠ 10 := by
  cases xs with
  | nil => simp [printObj]
  | cons k v t =>
    cases t with
    | nil =>
      intro x hx
      rcases List.mem_cons.mp hx with rfl | hx2
      · decide
      · rcases List.mem_append.mp hx2 with hx3 | hx3
        · exact escapeStr_not_lf k x hx3
        · rcases List.mem_cons.mp hx3 with rfl | hx4
          · decide
          · rcases List.mem_cons.mp hx4 with rfl | hx5
            · decide
            · rcases List.mem_cons.mp hx5 with rfl | hx6
              · decide
              · exact printJ_not_lf v x hx6
    | cons k2 v2 t2 =>
      intro x hx
      rcases List.mem_append.mp hx with hx2 | hx2
      · rcases List.mem_cons.mp hx2 with rfl | hx3
        · decide
        · rcases List.mem_append.mp hx3 with hx4 | hx4
          · exact escapeStr_not_lf k x hx4
          · rcases List.mem_cons.mp hx4 with rfl | hx5
            · decide
            · rcases List.mem_cons.mp hx5 with rfl | hx6
              · decide
              · rcases List.mem_cons.mp hx6 with rfl | hx7
                · decide
                · exact printJ_not_lf v x hx7
      · rcases List.mem_cons.mp hx2 with rfl | hx3
        · decide
        · rcases List.mem_cons.mp hx3 with rfl | hx4
          · decide
          · exact printObj_not_lf (.cons k2 v2 t2) x hx4
end

theorem char_eq_ofNat_of_toNat (c : Char) (n : Nat) (h : c.toNat = n) :
    c = Char.ofNat n := by
  rw [← h, Char.ofNat_toNat]

theorem char_toNat_valid (c : Char) :
    c.toNat < 55296 ∨ (57344 ≤ c.toNat ∧ c.toNat < 1114112) := by
  have h := c.valid
  simpa [Char.toNat, UInt32.isValidChar, Nat.isValidChar] using h

theorem hexVal_hexDigit (k : Nat) (h : k < 16) : hexVal (hexDigit k) = some k := by
  unfold hexVal
  rw [hexDigit_toNat k h]
  by_cases h10 : k < 10
  · simp only [h10, if_true, ite_true]
    rw [if_pos (by omega)]
    congr 1
    omega
  · simp only [h10, if_false, ite_false]
    rw [if_neg (by omega), if_pos (by omega)]
    congr 1
    omega

theorem hex4_ucode (n : Nat) (h : n < 65536) :
    hex4 (hexDigit (n / 4096 % 16)) (hexDigit (n / 256 % 16))
      (hexDigit (n / 16 % 16)) (hexDigit (n % 16)) = some n := by
  simp only [hex4, hexVal_hexDigit _ (Nat.mod_lt _ (show 0 < 16 by omega))]
  congr 1
  omega

theorem parseStrBody_u_val (fuel : Nat) (h1 h2 h3 h4 : Char) (u : Nat) (r2 : List Char)
    (hh : hex4 h1 h2 h3 h4 = some u) (hu : u < 55296 ∨ 57344 ≤ u) :
    parseStrBody (fuel + 1) ('\\' :: 'u' :: h1 :: h2 :: h3 :: h4 :: r2) =
      consStr (Char.ofNat u) (parseStrBody fuel r2) := by
  simp [parseStrBody, hh, hu]

theorem parseStrBody_u_pair (fuel : Nat) (h1 h2 h3 h4 g1 g2 g3 g4 : Char) (u u2 : Nat)
    (r3 : List Char) (hh : hex4 h1 h2 h3 h4 = some u) (hu1 : 55296 ≤ u) (hu2 : u ≤ 56319)
    (hg : hex4 g1 g2 g3 g4 = some u2) (hl1 : 56320 ≤ u2) (hl2 : u2 ≤ 57343) :
    parseStrBody (fuel + 1)
        ('\\' :: 'u' :: h1 :: h2 :: h3 :: h4 :: '\\' :: 'u' :: g1 :: g2 :: g3 :: g4 :: r3) =
      consStr (Char.ofNat (65536 + (u - 55296) * 1024 + (u2 - 56320))) (parseStrBody fuel r3) := by
  have hno : ¬(u < 55296 ∨ 57344 ≤ u) := by omega
  simp [parseStrBody, hh, hg, hno, hu2, hl1, hl2]

theorem parseStrBody_escapeChar (c : Char) (r : List Char) (fuel : Nat) :
    parseStrBody (fuel + 1) (escapeChar c ++ r) = consStr c (parseStrBody fuel r) := by
  unfold escapeChar
  split_ifs with h1 h2 h3 h4 h5 h6 h7 h8 h9
  · have hc : c = '"' := by rw [char_eq_ofNat_of_toNat c 34 h1]
    rw [hc]; rfl
  · have hc : c = '\\' := by rw [char_eq_ofNat_of_toNat c 92 h2]
    rw [hc]; rfl
  · rw [char_eq_ofNat_of_toNat c 8 h3]; rfl
  · rw [char_eq_ofNat_of_toNat c 9 h4]; rfl
  · rw [char_eq_ofNat_of_toNat c 10 h5]; rfl
  · rw [char_eq_ofNat_of_toNat c 12 h6]; rfl
  · rw [char_eq_ofNat_of_toNat c 13 h7]; rfl
  · have hv : c.toNat < 55296 ∨ 57344 ≤ c.toNat := by
      rcases char_toNat_valid c with hx | ⟨hx, _⟩
      · exact Or.inl hx
      · exact Or.inr hx
    simp only [ucode, List.cons_append, List.nil_append]
    rw [parseStrBody_u_val fuel _ _ _ _ c.toNat r (hex4_ucode c.toNat h9) hv,
      Char.ofNat_toNat]
  · have hcv := char_toNat_valid c
    have hdle : (c.toNat - 65536) / 1024 ≤ 1023 := by omega
    have hmlt : (c.toNat - 65536) % 1024 < 1024 := Nat.mod_lt _ (by omega)
    simp only [ucode, List.cons_append, List.nil_append, List.append_assoc]
    rw [parseStrBody_u_pair fuel _ _ _ _ _ _ _ _
        (55296 + (c.toNat - 65536) / 1024) (56320 + (c.toNat - 65536) % 1024) r
        (hex4_ucode _ (by omega)) (by omega) (by omega)
        (hex4_ucode _ (by omega)) (by omega) (by omega)]
    have hcomb : 65536 + (55296 + (c.toNat - 65536) / 1024 - 55296) * 1024 +
        (56320 + (c.toNat - 65536) % 1024 - 56320) = c.toNat := by
      have hd := Nat.div_add_mod (c.toNat - 65536) 1024
      omega
    rw [hcomb, Char.ofNat_toNat]
  · simp only [List.cons_append, List.nil_append]
    have h32 : ¬ c.toNat < 32 := by omega
    simp only [parseStrBody]
    rw [if_neg h1, if_neg h2, if_neg h32]

theorem parseStrBody_escapeStr (s rest : List Char) (fuel : Nat) (hf : s.length < fuel) :
    parseStrBody fuel (escapeStr s ++ '"' :: rest) = some (s, rest) := by
  induction s generalizing fuel with
  | nil =>
    cases fuel with
    | zero => omega
    | succ f => rfl
  | cons c t ih =>
    cases fuel with
    | zero => omega
    | succ f =>
      simp only [escapeStr, List.append_assoc]
      rw [parseStrBody_escapeChar c _ f, ih _ (by simpa using Nat.lt_of_succ_lt_succ hf)]
      rfl

theorem escapeChar_length_pos (c : Char) : 0 < (escapeChar c).length := by
  unfold escapeChar
  split_ifs <;> simp [ucode]

theorem escapeStr_length_ge (s : List Char) : s.length ≤ (escapeStr s).length := by
  induction s with
  | nil => simp [escapeStr]
  | cons c t ih =>
    simp only [escapeStr, List.length_append, List.length_cons]
    have := escapeChar_length_pos c
    omega

theorem parseStr_escapeStr (s rest : List Char) :
    parseStr (escapeStr s ++ '"' :: rest) = some (s, rest) := by
  unfold parseStr
  apply parseStrBody_escapeStr
  have := escapeStr_length_ge s
  simp only [List.length_append, List.length_cons]
  omega

theorem parseDigits_stop (acc : Nat) (rest : List Char) (h : numBoundary rest) :
    parseDigits acc rest = (acc, rest) := by
  cases rest with
  | nil => rfl
  | cons c t =>
    simp only [parseDigits]
    rw [if_neg h.1]

theorem parseDigits_digit (acc : Nat) (d : Nat) (hd : d ≤ 9) (t : List Char) :
    parseDigits acc (Char.ofNat (48 + d) :: t) = parseDigits (acc * 10 + d) t := by
  simp only [parseDigits]
  rw [charToNat_ofNat_small _ (by omega), if_pos (by omega)]
  congr 1
  omega

theorem parseDigits_natDigitsAux (fuel : Nat) :
    ∀ (n acc : Nat) (rest : List Char), n < fuel →
      parseDigits acc (natDigitsAux fuel n ++ rest) =
        parseDigits (acc * 10 ^ (natDigitsAux fuel n).length + n) rest := by
  induction fuel with
  | zero => intro n acc rest h; omega
  | succ f ih =>
    intro n acc rest h
    by_cases h10 : n < 10
    · simp only [natDigitsAux, h10, if_true, ite_true, List.cons_append, List.nil_append]
      rw [parseDigits_digit acc n (by omega)]
      simp
    · simp only [natDigitsAux, h10, if_false, ite_false, List.append_assoc, List.cons_append,
        List.nil_append]
      have hlt : n / 10 < f := by omega
      rw [ih (n / 10) acc _ hlt, parseDigits_digit _ (n % 10) (by omega)]
      have hlen : (natDigitsAux f (n / 10) ++ [Char.ofNat (48 + n % 10)]).length =
          (natDigitsAux f (n / 10)).length + 1 := by simp
      rw [hlen]
      congr 1
      have hdm := Nat.div_add_mod n 10
      ring_nf
      omega

theorem natDigitsAux_head_pos (fuel : Nat) :
    ∀ n : Nat, n < fuel → 0 < n →
      ∃ d t2, natDigitsAux fuel n = Char.ofNat (48 + d) :: t2 ∧ 1 ≤ d ∧ d ≤ 9 := by
  induction fuel with
  | zero => intro n h; omega
  | succ f ih =>
    intro n h hn
    by_cases h10 : n < 10
    · exact ⟨n, [], by simp [natDigitsAux, h10], by omega, by omega⟩
    · obtain ⟨d, t2, he, hd1, hd9⟩ := ih (n / 10) (by omega) (by omega)
      exact ⟨d, t2 ++ [Char.ofNat (48 + n % 10)], by simp [natDigitsAux, h10, he], hd1, hd9⟩

theorem parseNatNum_natDigits (n : Nat) (rest : List Char) (hrest : numBoundary rest) :
    parseNatNum (natDigits n ++ rest) = some (n, rest) := by
  by_cases hn : n = 0
  · subst hn
    rw [show natDigits 0 = ['0'] from rfl]
    simp only [List.cons_append, List.nil_append, parseNatNum]
    rw [if_pos (by decide)]
  · obtain ⟨d, t2, he, hd1, hd9⟩ :=
      natDigitsAux_head_pos (n + 1) n (by omega) (by omega)
    unfold natDigits
    rw [he]
    simp only [List.cons_append, parseNatNum]
    rw [charToNat_ofNat_small _ (by omega), if_neg (by omega), if_pos (by omega)]
    have hstep : parseDigits (48 + d - 48) (t2 ++ rest) = parseDigits 0 (natDigits n ++ rest) := by
      unfold natDigits
      rw [he]
      simp only [List.cons_append]
      rw [parseDigits_digit 0 d (by omega)]
      congr 1
      omega
    rw [hstep]
    unfold natDigits
    rw [parseDigits_natDigitsAux (n + 1) n 0 rest (by omega), Nat.zero_mul, Nat.zero_add,
      parseDigits_stop n rest hrest]

theorem floatGuard_stop (v : Int) (rest : List Char) (h : numBoundary rest) :
    floatGuard v rest = some (v, rest) := by
  cases rest with
  | nil => rfl
  | cons c t =>
    simp only [floatGuard]
    rw [if_neg (by push_neg; exact ⟨h.2.1, h.2.2.1, h.2.2.2⟩)]

theorem natDigits_head_digit (n : Nat) :
    ∃ d t2, natDigits n = Char.ofNat (48 + d) :: t2 ∧ d ≤ 9 := by
  by_cases hn : n = 0
  · subst hn
    exact ⟨0, [], rfl, by omega⟩
  · obtain ⟨d, t2, he, _, hd9⟩ := natDigitsAux_head_pos (n + 1) n (by omega) (by omega)
    exact ⟨d, t2, he, hd9⟩

theorem parseNum_printInt (n : Int) (rest : List Char) (hrest : numBoundary rest) :
    parseNum (printInt n ++ rest) = some (n, rest) := by
  by_cases hneg : n < 0
  · unfold printInt
    rw [if_pos hneg]
    simp only [List.cons_append, parseNum]
    rw [if_pos (by decide)]
    rw [parseNatNum_natDigits n.natAbs rest hrest]
    show floatGuard (-(n.natAbs : Int)) rest = some (n, rest)
    rw [floatGuard_stop _ rest hrest]
    congr 2
    omega
  · unfold printInt
    rw [if_neg hneg]
    obtain ⟨d, t2, he, hd9⟩ := natDigits_head_digit n.toNat
    rw [he]
    simp only [List.cons_append, parseNum]
    rw [charToNat_ofNat_small _ (by omega), if_neg (by omega)]
    rw [← List.cons_append, ← he, parseNatNum_natDigits n.toNat rest hrest]
    show floatGuard ((n.toNat : Nat) : Int) rest = some (n, rest)
    rw [floatGuard_stop _ rest hrest]
    congr 2
    omega

theorem skipWs_not_ws (c : Char) (t : List Char) (h : isWsChar c = false) :
    skipWs (c :: t) = c :: t := by
  simp [skipWs, h]

theorem printJ_head (j : JValue) :
    ∃ c t2, printJ j = c :: t2 ∧ isWsChar c = false ∧ c.toNat ≠ 93 ∧ c.toNat ≠ 125 := by
  cases j with
  | jnull => refine ⟨'n', _, rfl, ?_, ?_, ?_⟩ <;> decide
  | jbool b =>
    cases b with
    | true => refine ⟨'t', _, rfl, ?_, ?_, ?_⟩ <;> decide
    | false => refine ⟨'f', _, rfl, ?_, ?_, ?_⟩ <;> decide
  | jnum n =>
    by_cases hn : n < 0
    · refine ⟨'-', natDigits n.natAbs, ?_, by decide, by decide, by decide⟩
      simp [printJ, printInt, hn]
    · obtain ⟨d, t2, he, hd9⟩ := natDigits_head_digit n.toNat
      refine ⟨Char.ofNat (48 + d), t2, ?_, ?_, ?_, ?_⟩
      · simp [printJ, printInt, hn, he]
      · simp only [isWsChar]
        rw [charToNat_ofNat_small _ (by omega)]
        simp only [Bool.or_eq_false_iff, decide_eq_false_iff_not]
        omega
      · rw [charToNat_ofNat_small _ (by omega)]; omega
      · rw [charToNat_ofNat_small _ (by omega)]; omega
  | jstr s => exact ⟨'"', _, rfl, by decide, by decide, by decide⟩
  | jarr xs => exact ⟨'[', _, rfl, by decide, by decide, by decide⟩
  | jobj xs => exact ⟨'{', _, rfl, by decide, by decide, by decide⟩

theorem natDigits_ne_nil (n : Nat) : natDigits n ≠ [] := by
  obtain ⟨d, t2, he, _⟩ := natDigits_head_digit n
  simp [natDigits] at he ⊢
  rw [he]
  simp

theorem printInt_length_pos (n : Int) : 0 < (printInt n).length := by
  unfold printInt
  split_ifs
  · simp
  · have := natDigits_ne_nil n.toNat
    cases h : natDigits n.toNat with
    | nil => exact absurd h this
    | cons a b => simp [h]

mutual
theorem printJ_size_le (j : JValue) : jsizeF j ≤ (printJ j).length := by
  cases j with
  | jnull => decide
  | jbool b => cases b <;> decide
  | jnum n =>
    have := printInt_length_pos n
    simpa [jsizeF, printJ] using this
  | jstr s => simp [jsizeF, printJ]
  | jarr xs =>
    have h := printArr_size_le xs
    simp only [jsizeF, printJ, List.length_cons, List.length_append, List.length_singleton]
    omega
  | jobj xs =>
    have h := printObj_size_le xs
    simp only [jsizeF, printJ, List.length_cons, List.length_append, List.length_singleton]
    omega

theorem printArr_size_le (xs : JArr) : asizeF xs ≤ (printArr xs).length + 1 := by
  cases xs with
  | nil => simp [asizeF, printArr]
  | cons x t =>
    cases t with
    | nil =>
      have h := printJ_size_le x
      simp only [asizeF, printArr]
      omega
    | cons y t2 =>
      have h1 := printJ_size_le x
      have h2 := printArr_size_le (.cons y t2)
      simp only [asizeF, printArr, List.length_append, List.length_cons] at h2 ⊢
      omega

theorem printObj_size_le (xs : JObj) : osizeF xs ≤ (printObj xs).length + 1 := by
  cases xs with
  | nil => simp [osizeF, printObj]
  | cons k v t =>
    cases t with
    | nil =>
      have h := printJ_size_le v
      simp only [osizeF, printObj, List.length_cons, List.length_append]
      omega
    | cons k2 v2 t2 =>
      have h1 := printJ_size_le v
      have h2 := printObj_size_le (.cons k2 v2 t2)
      simp only [osizeF, printObj, List.length_cons, List.length_append] at h2 ⊢
      omega
end

theorem jobj_append_nil (a : JObj) : a.append .nil = a := by
  cases a with
  | nil => rfl
  | cons k v t => simp [JObj.append, jobj_append_nil t]

theorem jobj_append_assoc (a b c : JObj) :
    (a.append b).append c = a.append (b.append c) := by
  cases a with
  | nil => rfl
  | cons k v t => simp [JObj.append, jobj_append_assoc t b c]

theorem jobj_hasKey_append (a b : JObj) (k : List Char) :
    (a.append b).hasKey k = (a.hasKey k || b.hasKey k) := by
  cases a with
  | nil => simp [JObj.append, JObj.hasKey]
  | cons k2 v t => simp [JObj.append, JObj.hasKey, jobj_hasKey_append t b k, Bool.or_assoc]

theorem jobj_keys_contains_eq_hasKey (xs : JObj) (k : List Char) :
    (xs.keys).contains k = xs.hasKey k := by
  cases xs with
  | nil => simp [JObj.keys, JObj.hasKey]
  | cons k2 v t =>
    simp only [JObj.keys, JObj.hasKey, List.contains_cons,
      jobj_keys_contains_eq_hasKey t k]
    congr 1
    by_cases he : k = k2
    · subst he; simp
    · simp [he, show ¬ k2 = k from fun h => he h.symm]

theorem dictOfPairsAux_disjoint (xs : JObj) :
    ∀ acc : JObj, keysNodup xs.keys = true → (∀ k, xs.hasKey k → acc.hasKey k = false) →
      dictOfPairsAux acc xs = acc.append xs := by
  cases xs with
  | nil =>
    intro acc _ _
    simp only [dictOfPairsAux]
    rw [jobj_append_nil]
  | cons k v t =>
    intro acc hnd hdisj
    have hk : acc.hasKey k = false := hdisj k (by simp [JObj.hasKey])
    simp only [dictOfPairsAux, hk, Bool.false_eq_true, if_false, ite_false]
    have hnd2 : keysNodup t.keys = true := by
      simp only [JObj.keys, keysNodup, Bool.and_eq_true] at hnd
      exact hnd.2
    have hdisj2 : ∀ k2, t.hasKey k2 → (acc.append (.cons k v .nil)).hasKey k2 = false := by
      intro k2 hk2
      rw [jobj_hasKey_append]
      simp only [JObj.keys, keysNodup, Bool.and_eq_true, Bool.not_eq_true'] at hnd
      have hne : k2 ≠ k := by
        intro he
        subst he
        rw [← jobj_keys_contains_eq_hasKey] at hk2
        rw [hk2] at hnd
        exact absurd hnd.1 (by simp)
      have ha : acc.hasKey k2 = false := hdisj k2 (by simp [JObj.hasKey, hk2])
      have hne2 : ¬ k = k2 := fun h => hne h.symm
      simp [ha, JObj.hasKey, hne2]
    rw [dictOfPairsAux_disjoint t _ hnd2 hdisj2, jobj_append_assoc]
    rfl

theorem dictOfPairs_nodup (xs : JObj) (h : keysNodup xs.keys = true) :
    dictOfPairs xs = xs := by
  unfold dictOfPairs
  rw [dictOfPairsAux_disjoint xs .nil h (fun k _ => rfl)]
  rfl

theorem numBoundary_rb (rest : List Char) : numBoundary (']' :: rest) := by
  refine ⟨by decide, by decide, by decide, by decide⟩

theorem numBoundary_rc (rest : List Char) : numBoundary ('}' :: rest) := by
  refine ⟨by decide, by decide, by decide, by decide⟩

theorem numBoundary_comma (rest : List Char) : numBoundary (',' :: rest) := by
  refine ⟨by decide, by decide, by decide, by decide⟩

theorem parseVal_lbracket (f : Nat) (X : List Char) :
    parseVal (f + 1) ('[' :: X) =
      match skipWs X with
      | [] => Option.none
      | c2 :: r =>
        if c2.toNat = 93 then some (.jarr .nil, r)
        else
          match parseElems f (c2 :: r) with
          | some (xs, r2) => some (.jarr xs, r2)
          | Option.none => Option.none := rfl

theorem parseVal_lbrace (f : Nat) (X : List Char) :
    parseVal (f + 1) ('{' :: X) =
      match skipWs X with
      | [] => Option.none
      | c2 :: r =>
        if c2.toNat = 125 then some (.jobj .nil, r)
        else
          match parseMembs f (c2 :: r) with
          | some (ms, r2) => some (.jobj (dictOfPairs ms), r2)
          | Option.none => Option.none := rfl

theorem parseVal_quote (f : Nat) (X : List Char) :
    parseVal (f + 1) ('"' :: X) =
      match parseStr X with
      | some (s, r) => some (.jstr s, r)
      | Option.none => Option.none := rfl

theorem parseMembs_quote (f : Nat) (X : List Char) :
    parseMembs (f + 1) ('"' :: X) =
      match parseStr X with
      | Option.none => Option.none
      | some (k, r) =>
        match skipWs r with
        | [] => Option.none
        | c2 :: r2 =>
          if c2.toNat = 58 then
            match parseVal f (skipWs r2) with
            | Option.none => Option.none
            | some (v, r3) =>
              match skipWs r3 with
              | [] => Option.none
              | c3 :: r4 =>
                if c3.toNat = 44 then
                  match parseMembs f (skipWs r4) with
                  | some (ms, r5) => some (.cons k v ms, r5)
                  | Option.none => Option.none
                else if c3.toNat = 125 then some (.cons k v .nil, r4)
                else Option.none
          else Option.none := rfl

theorem printArr_head (x : JValue) (t : JArr) :
    ∃ c t2, printArr (.cons x t) = c :: t2 ∧ isWsChar c = false ∧ c.toNat ≠ 93 := by
  obtain ⟨c, t2, he, hws, h93, _⟩ := printJ_head x
  cases t with
  | nil => exact ⟨c, t2, by simp [printArr, he], hws, h93⟩
  | cons y t3 =>
    refine ⟨c, t2 ++ (',' :: ' ' :: printArr (.cons y t3)), ?_, hws, h93⟩
    simp [printArr, he]

theorem printObj_head (k : List Char) (v : JValue) (t : JObj) :
    ∃ t2, printObj (.cons k v t) = '"' :: t2 := by
  cases t with
  | nil => exact ⟨_, rfl⟩
  | cons k2 v2 t3 => exact ⟨_, rfl⟩

theorem parseVal_minus (f : Nat) (X : List Char) :
    parseVal (f + 1) ('-' :: X) =
      match parseNum ('-' :: X) with
      | some (v, r) => some (.jnum v, r)
      | Option.none => Option.none := rfl

theorem parseVal_lbracket_cons (f : Nat) (c : Char) (Y : List Char)
    (hws : isWsChar c = false) (h93 : c.toNat ≠ 93) :
    parseVal (f + 1) ('[' :: (c :: Y)) =
      match parseElems f (c :: Y) with
      | some (xs, r2) => some (.jarr xs, r2)
      | Option.none => Option.none := by
  rw [parseVal_lbracket, skipWs_not_ws c Y hws]
  show (if c.toNat = 93 then some (JValue.jarr .nil, Y)
    else match parseElems f (c :: Y) with
      | some (xs, r2) => some (.jarr xs, r2)
      | Option.none => Option.none) = _
  rw [if_neg h93]

theorem parseVal_lbrace_cons (f : Nat) (c : Char) (Y : List Char)
    (hws : isWsChar c = false) (h125 : c.toNat ≠ 125) :
    parseVal (f + 1) ('{' :: (c :: Y)) =
      match parseMembs f (c :: Y) with
      | some (ms, r2) => some (.jobj (dictOfPairs ms), r2)
      | Option.none => Option.none := by
  rw [parseVal_lbrace, skipWs_not_ws c Y hws]
  show (if c.toNat = 125 then some (JValue.jobj .nil, Y)
    else match parseMembs f (c :: Y) with
      | some (ms, r2) => some (.jobj (dictOfPairs ms), r2)
      | Option.none => Option.none) = _
  rw [if_neg h125]

theorem skipWs_space (X : List Char) : skipWs (' ' :: X) = skipWs X := by
  simp [skipWs, isWsChar]

theorem skipWs_printJ_append (v : JValue) (R : List Char) :
    skipWs (printJ v ++ R) = printJ v ++ R := by
  obtain ⟨c, t2, he, hws, _, _⟩ := printJ_head v
  rw [he, List.cons_append, skipWs_not_ws c _ hws]

theorem skipWs_printArr_append (y : JValue) (t2 : JArr) (R : List Char) :
    skipWs (printArr (.cons y t2) ++ R) = printArr (.cons y t2) ++ R := by
  obtain ⟨c, t3, he, hws, _⟩ := printArr_head y t2
  rw [he, List.cons_append, skipWs_not_ws c _ hws]

theorem skipWs_printObj_append (k2 : List Char) (v2 : JValue) (t2 : JObj)
    (R : List Char) :
    skipWs (printObj (.cons k2 v2 t2) ++ R) = printObj (.cons k2 v2 t2) ++ R := by
  obtain ⟨t3, he⟩ := printObj_head k2 v2 t2
  rw [he, List.cons_append, skipWs_not_ws _ _ (by decide)]

theorem jsizeF_pos (j : JValue) : 1 ≤ jsizeF j := by
  cases j <;> simp [jsizeF]

mutual
theorem parse_print (j : JValue) : ∀ (fuel : Nat) (rest : List Char),
    jsizeF j ≤ fuel → jwfB j = true → numBoundary rest →
    parseVal fuel (printJ j ++ rest) = some (j, rest) := by
  intro fuel rest hsz hwf hnb
  cases fuel with
  | zero => have := jsizeF_pos j; omega
  | succ f =>
    cases j with
    | jnull => rfl
    | jbool b =>
      cases b with
      | true => rfl
      | false => rfl
    | jnum n =>
      show parseVal (f + 1) (printInt n ++ rest) = some (.jnum n, rest)
      by_cases hneg : n < 0
      · have hp : printInt n = '-' :: natDigits n.natAbs := by simp [printInt, hneg]
        rw [hp, List.cons_append, parseVal_minus, ← List.cons_append, ← hp,
          parseNum_printInt n rest hnb]
      · obtain ⟨d, t2, he, hd9⟩ := natDigits_head_digit n.toNat
        have hp : printInt n = Char.ofNat (48 + d) :: t2 := by simp [printInt, hneg, he]
        rw [hp, List.cons_append]
        simp only [parseVal, charToNat_ofNat_small (48 + d) (by omega)]
        rw [if_neg (by omega), if_neg (by omega), if_neg (by omega), if_neg (by omega),
          if_neg (by omega), if_neg (by omega), if_pos (Or.inr ⟨by omega, by omega⟩),
          ← List.cons_append, ← hp, parseNum_printInt n rest hnb]
    | jstr s =>
      show parseVal (f + 1) (('"' :: (escapeStr s ++ ['"'])) ++ rest) = some (.jstr s, rest)
      rw [List.cons_append, List.append_assoc, List.singleton_append, parseVal_quote,
        parseStr_escapeStr s rest]
    | jarr xs =>
      cases xs with
      | nil =>
        show parseVal (f + 1) (('[' :: (printArr .nil ++ [']'])) ++ rest) =
          some (.jarr .nil, rest)
        rw [show printArr JArr.nil = [] from rfl]
        rfl
      | cons x t =>
        have hsz2 : asizeF (.cons x t) ≤ f := by
          simp only [jsizeF] at hsz
          omega
        have hwf2 : awfB (.cons x t) = true := by simpa [jwfB] using hwf
        obtain ⟨c, t2, he, hws, h93⟩ := printArr_head x t
        show parseVal (f + 1) (('[' :: (printArr (.cons x t) ++ [']'])) ++ rest) =
          some (.jarr (.cons x t), rest)
        rw [List.cons_append, List.append_assoc, List.singleton_append, he,
          List.cons_append, parseVal_lbracket_cons f c _ hws h93, ← List.cons_append, ← he,
          parse_print_arr x t f rest hsz2 hwf2]
    | jobj xs =>
      cases xs with
      | nil =>
        show parseVal (f + 1) (('{' :: (printObj .nil ++ ['}'])) ++ rest) =
          some (.jobj .nil, rest)
        rw [show printObj JObj.nil = [] from rfl]
        rfl
      | cons k v t =>
        have hsz2 : osizeF (.cons k v t) ≤ f := by
          simp only [jsizeF] at hsz
          omega
        have hnodup : keysNodup (JObj.cons k v t).keys = true := by
          simp only [jwfB, Bool.and_eq_true] at hwf
          exact hwf.1
        have hwf2 : owfB (.cons k v t) = true := by
          simp only [jwfB, Bool.and_eq_true] at hwf
          exact hwf.2
        obtain ⟨t2, he⟩ := printObj_head k v t
        show parseVal (f + 1) (('{' :: (printObj (.cons k v t) ++ ['}'])) ++ rest) =
          some (.jobj (.cons k v t), rest)
        rw [List.cons_append, List.append_assoc, List.singleton_append, he,
          List.cons_append, parseVal_lbrace_cons f '"' _ (by decide) (by decide),
          ← List.cons_append, ← he, parse_print_obj k v t f rest hsz2 hwf2]
        show some (JValue.jobj (dictOfPairs (JObj.cons k v t)), rest) =
          some (JValue.jobj (JObj.cons k v t), rest)
        rw [dictOfPairs_nodup _ hnodup]
termination_by sizeOf j

theorem parse_print_arr (x : JValue) (t : JArr) : ∀ (f : Nat) (rest : List Char),
    asizeF (.cons x t) ≤ f → awfB (.cons x t) = true →
    parseElems f (printArr (.cons x t) ++ ']' :: rest) = some (.cons x t, rest) := by
  intro f rest hsz hwf
  have hwfs : jwfB x = true ∧ awfB t = true := by
    simpa [awfB, Bool.and_eq_true] using hwf
  cases f with
  | zero => simp [asizeF] at hsz
  | succ g =>
    cases t with
    | nil =>
      show parseElems (g + 1) (printJ x ++ ']' :: rest) = some (.cons x .nil, rest)
      simp only [parseElems]
      rw [parse_print x g (']' :: rest) (by simp only [asizeF] at hsz; omega) hwfs.1
        (numBoundary_rb rest)]
      rfl
    | cons y t2 =>
      show parseElems (g + 1)
          ((printJ x ++ (',' :: ' ' :: printArr (.cons y t2))) ++ ']' :: rest) =
        some (.cons x (.cons y t2), rest)
      rw [List.append_assoc, List.cons_append, List.cons_append]
      simp only [parseElems]
      rw [parse_print x g _ (by simp only [asizeF] at hsz ⊢; omega) hwfs.1
        (numBoundary_comma _)]
      show (match parseElems g (skipWs (' ' :: (printArr (.cons y t2) ++ ']' :: rest))) with
        | some (xs, r3) => some (JArr.cons x xs, r3)
        | Option.none => Option.none) = some (JArr.cons x (.cons y t2), rest)
      rw [skipWs_space, skipWs_printArr_append,
        parse_print_arr y t2 g rest (by simp only [asizeF] at hsz ⊢; omega) hwfs.2]
termination_by sizeOf (JArr.cons x t)

theorem parse_print_obj (k : List Char) (v : JValue) (t : JObj) :
    ∀ (f : Nat) (rest : List Char),
    osizeF (.cons k v t) ≤ f → owfB (.cons k v t) = true →
    parseMembs f (printObj (.cons k v t) ++ '}' :: rest) = some (.cons k v t, rest) := by
  intro f rest hsz hwf
  have hwfs : jwfB v = true ∧ owfB t = true := by
    simpa [owfB, Bool.and_eq_true] using hwf
  cases f with
  | zero => simp [osizeF] at hsz
  | succ g =>
    cases t with
    | nil =>
      show parseMembs (g + 1)
          (('"' :: (escapeStr k ++ ('"' :: ':' :: ' ' :: printJ v))) ++ '}' :: rest) =
        some (.cons k v .nil, rest)
      rw [List.cons_append, List.append_assoc, List.cons_append, List.cons_append,
        List.cons_append, parseMembs_quote,
        parseStr_escapeStr k (':' :: ' ' :: (printJ v ++ '}' :: rest))]
      show (match parseVal g (skipWs (' ' :: (printJ v ++ '}' :: rest))) with
        | Option.none => Option.none
        | some (v2, r3) =>
          match skipWs r3 with
          | [] => Option.none
          | c3 :: r4 =>
            if c3.toNat = 44 then
              match parseMembs g (skipWs r4) with
              | some (ms, r5) => some (JObj.cons k v2 ms, r5)
              | Option.none => Option.none
            else if c3.toNat = 125 then some (JObj.cons k v2 .nil, r4)
            else Option.none) = some (JObj.cons k v .nil, rest)
      rw [skipWs_space, skipWs_printJ_append,
        parse_print v g ('}' :: rest) (by simp only [osizeF] at hsz; omega) hwfs.1
          (numBoundary_rc rest)]
      rfl
    | cons k2 v2 t2 =>
      show parseMembs (g + 1)
          ((('"' :: (escapeStr k ++ ('"' :: ':' :: ' ' :: printJ v))) ++
            (',' :: ' ' :: printObj (.cons k2 v2 t2))) ++ '}' :: rest) =
        some (.cons k v (.cons k2 v2 t2), rest)
      rw [List.append_assoc, List.cons_append, List.append_assoc, parseMembs_quote]
      rw [show ('"' :: ':' :: ' ' :: printJ v) ++
          ((',' :: ' ' :: printObj (.cons k2 v2 t2)) ++ '}' :: rest) =
          '"' :: ':' :: ' ' ::
            (printJ v ++ (',' :: ' ' :: (printObj (.cons k2 v2 t2) ++ '}' :: rest))) from by
        simp]
      rw [parseStr_escapeStr k
        (':' :: ' ' :: (printJ v ++ (',' :: ' ' :: (printObj (.cons k2 v2 t2) ++ '}' :: rest))))]
      show (match parseVal g
          (skipWs (' ' ::
            (printJ v ++ (',' :: ' ' :: (printObj (.cons k2 v2 t2) ++ '}' :: rest))))) with
        | Option.none => Option.none
        | some (v3, r3) =>
          match skipWs r3 with
          | [] => Option.none
          | c3 :: r4 =>
            if c3.toNat = 44 then
              match parseMembs g (skipWs r4) with
              | some (ms, r5) => some (JObj.cons k v3 ms, r5)
              | Option.none => Option.none
            else if c3.toNat = 125 then some (JObj.cons k v3 .nil, r4)
            else Option.none) = some (JObj.cons k v (.cons k2 v2 t2), rest)
      rw [skipWs_space, skipWs_printJ_append,
        parse_print v g _ (by simp only [osizeF] at hsz ⊢; omega) hwfs.1
          (numBoundary_comma _)]
      show (match parseMembs g
          (skipWs (' ' :: (printObj (.cons k2 v2 t2) ++ '}' :: rest))) with
        | some (ms, r5) => some (JObj.cons k v ms, r5)
        | Option.none => Option.none) = some (JObj.cons k v (.cons k2 v2 t2), rest)
      rw [skipWs_space, skipWs_printObj_append,
        parse_print_obj k2 v2 t2 g rest (by simp only [osizeF] at hsz ⊢; omega) hwfs.2]
termination_by sizeOf (JObj.cons k v t)
end

theorem parseTop_printJ (j : JValue) (hwf : jwfB j = true) :
    parseTop (printJ j) = some j := by
  unfold parseTop
  obtain ⟨c, t2, he, hws, _, _⟩ := printJ_head j
  rw [he, skipWs_not_ws c _ hws, ← he]
  have hp := parse_print j ((printJ j).length + 1) []
    (by have := printJ_size_le j; omega) hwf trivial
  rw [List.append_nil] at hp
  rw [hp]
  rfl

theorem string_mk_data (s : String) : String.mk s.data = s := rfl

theorem assocOfNativeDict_lookup_none (xs : PyDict) (hn : nativeOkD xs = true) :
    (assocOfNativeDict xs).lookup classUuidKey = Option.none := by
  cases xs with
  | nil => rfl
  | cons k v t =>
    simp only [nativeOkD, Bool.and_eq_true] at hn
    obtain ⟨⟨hk, hv⟩, ht⟩ := hn
    cases k with
    | str s =>
      simp only [Bool.and_eq_true, Bool.not_eq_true', beq_eq_false_iff_ne, ne_eq] at hk
      simp only [assocOfNativeDict, PyAssoc.lookup]
      rw [if_neg hk.1]
      exact assocOfNativeDict_lookup_none t ht
    | bytes b => simp at hk
    | int n => simp at hk
    | bool b => simp at hk
    | pynone => simp at hk
    | list l => simp at hk
    | dict d => simp at hk
    | level l => simp at hk
    | failure st m nm => simp at hk
    | obj => simp at hk

theorem pyDictOfAssoc_assocOfNativeDict (xs : PyDict) (hn : nativeOkD xs = true) :
    pyDictOfAssoc (assocOfNativeDict xs) = xs := by
  cases xs with
  | nil => rfl
  | cons k v t =>
    simp only [nativeOkD, Bool.and_eq_true] at hn
    obtain ⟨⟨hk, hv⟩, ht⟩ := hn
    cases k with
    | str s =>
      simp only [assocOfNativeDict, pyDictOfAssoc]
      rw [pyDictOfAssoc_assocOfNativeDict t ht]
    | bytes b => simp at hk
    | int n => simp at hk
    | bool b => simp at hk
    | pynone => simp at hk
    | list l => simp at hk
    | dict d => simp at hk
    | level l => simp at hk
    | failure st m nm => simp at hk
    | obj => simp at hk

theorem hasKey_jOfPyDict (s : String) (t : PyDict) (hn : nativeOkD t = true)
    (hs : hasStrKey s t = false) : (jOfPyDict t).hasKey s.data = false := by
  cases t with
  | nil => rfl
  | cons k v t2 =>
    simp only [nativeOkD, Bool.and_eq_true] at hn
    obtain ⟨⟨hk, hv⟩, ht⟩ := hn
    cases k with
    | str s2 =>
      simp only [hasStrKey, Bool.or_eq_false_iff, decide_eq_false_iff_not] at hs
      simp only [jOfPyDict, keyStr, JObj.hasKey, Bool.or_eq_false_iff,
        decide_eq_false_iff_not]
      constructor
      · intro he
        exact hs.1 (congrArg String.mk he)
      · exact hasKey_jOfPyDict s t2 ht hs.2
    | bytes b => simp at hk
    | int n => simp at hk
    | bool b => simp at hk
    | pynone => simp at hk
    | list l => simp at hk
    | dict d => simp at hk
    | level l => simp at hk
    | failure st m nm => simp at hk
    | obj => simp at hk

mutual
theorem jwfB_jOfPy (v : PyValue) : nativeOkV v = true → jwfB (jOfPy v) = true := by
  intro hn
  cases v with
  | str s => rfl
  | int n => rfl
  | bool b => rfl
  | pynone => rfl
  | list xs =>
    simp only [jOfPy, jwfB]
    exact awfB_jOfPyList xs (by simpa [nativeOkV] using hn)
  | dict xs =>
    simp only [jOfPy, jwfB, Bool.and_eq_true]
    exact ⟨keysNodup_jOfPyDict xs (by simpa [nativeOkV] using hn),
      owfB_jOfPyDict xs (by simpa [nativeOkV] using hn)⟩
  | bytes b => simp [nativeOkV] at hn
  | level l => simp [nativeOkV] at hn
  | failure st m nm => simp [nativeOkV] at hn
  | obj => simp [nativeOkV] at hn

theorem awfB_jOfPyList (xs : PyList) : nativeOkL xs = true → awfB (jOfPyList xs) = true := by
  intro hn
  cases xs with
  | nil => rfl
  | cons x t =>
    simp only [nativeOkL, Bool.and_eq_true] at hn
    simp only [jOfPyList, awfB, Bool.and_eq_true]
    exact ⟨jwfB_jOfPy x hn.1, awfB_jOfPyList t hn.2⟩

theorem keysNodup_jOfPyDict (xs : PyDict) :
    nativeOkD xs = true → keysNodup (jOfPyDict xs).keys = true := by
  intro hn
  cases xs with
  | nil => rfl
  | cons k v t =>
    simp only [nativeOkD, Bool.and_eq_true] at hn
    obtain ⟨⟨hk, hv⟩, ht⟩ := hn
    cases k with
    | str s =>
      simp only [Bool.and_eq_true, Bool.not_eq_true', beq_eq_false_iff_ne, ne_eq] at hk
      simp only [jOfPyDict, keyStr, JObj.keys, keysNodup, Bool.and_eq_true,
        Bool.not_eq_true']
      refine ⟨?_, keysNodup_jOfPyDict t ht⟩
      rw [jobj_keys_contains_eq_hasKey]
      exact hasKey_jOfPyDict s t ht hk.2
    | bytes b => simp at hk
    | int n => simp at hk
    | bool b => simp at hk
    | pynone => simp at hk
    | list l => simp at hk
    | dict d => simp at hk
    | level l => simp at hk
    | failure st m nm => simp at hk
    | obj => simp at hk

theorem owfB_jOfPyDict (xs : PyDict) :
    nativeOkD xs = true → owfB (jOfPyDict xs) = true := by
  intro hn
  cases xs with
  | nil => rfl
  | cons k v t =>
    simp only [nativeOkD, Bool.and_eq_true] at hn
    obtain ⟨⟨hk, hv⟩, ht⟩ := hn
    cases k with
    | str s =>
      simp only [jOfPyDict, keyStr, owfB, Bool.and_eq_true]
      exact ⟨jwfB_jOfPy v hv, owfB_jOfPyDict t ht⟩
    | bytes b => simp at hk
    | int n => simp at hk
    | bool b => simp at hk
    | pynone => simp at hk
    | list l => simp at hk
    | dict d => simp at hk
    | level l => simp at hk
    | failure st m nm => simp at hk
    | obj => simp at hk
end

mutual
theorem pyOfJ_jOfPy (v : PyValue) : nativeOkV v = true → pyOfJ (jOfPy v) = .ok v := by
  intro hn
  cases v with
  | str s => rfl
  | int n => rfl
  | bool b => rfl
  | pynone => rfl
  | list xs =>
    simp only [jOfPy, pyOfJ]
    rw [pyOfJArr_jOfPyList xs (by simpa [nativeOkV] using hn)]
  | dict xs =>
    have hd : nativeOkD xs = true := by simpa [nativeOkV] using hn
    simp only [jOfPy, pyOfJ]
    rw [pyOfJObj_jOfPyDict xs hd]
    simp only [objectLoadHook, assocOfNativeDict_lookup_none xs hd]
    rw [pyDictOfAssoc_assocOfNativeDict xs hd]
  | bytes b => simp [nativeOkV] at hn
  | level l => simp [nativeOkV] at hn
  | failure st m nm => simp [nativeOkV] at hn
  | obj => simp [nativeOkV] at hn

theorem pyOfJArr_jOfPyList (xs : PyList) :
    nativeOkL xs = true → pyOfJArr (jOfPyList xs) = .ok xs := by
  intro hn
  cases xs with
  | nil => rfl
  | cons x t =>
    simp only [nativeOkL, Bool.and_eq_true] at hn
    simp only [jOfPyList, pyOfJArr]
    rw [pyOfJ_jOfPy x hn.1, pyOfJArr_jOfPyList t hn.2]

theorem pyOfJObj_jOfPyDict (xs : PyDict) :
    nativeOkD xs = true → pyOfJObj (jOfPyDict xs) = .ok (assocOfNativeDict xs) := by
  intro hn
  cases xs with
  | nil => rfl
  | cons k v t =>
    simp only [nativeOkD, Bool.and_eq_true] at hn
    obtain ⟨⟨hk, hv⟩, ht⟩ := hn
    cases k with
    | str s =>
      simp only [jOfPyDict, keyStr, pyOfJObj, assocOfNativeDict]
      rw [pyOfJ_jOfPy v hv, pyOfJObj_jOfPyDict t ht]
    | bytes b => simp at hk
    | int n => simp at hk
    | bool b => simp at hk
    | pynone => simp at hk
    | list l => simp at hk
    | dict d => simp at hk
    | level l => simp at hk
    | failure st m nm => simp at hk
    | obj => simp at hk
end

theorem pyassoc_lookup_set_self (d : PyAssoc) (k : String) (v : PyValue) :
    (d.set k v).lookup k = some v := by
  cases d with
  | nil => simp [PyAssoc.set, PyAssoc.lookup]
  | cons k2 v2 t =>
    by_cases he : k2 = k
    · simp [PyAssoc.set, PyAssoc.lookup, he]
    · simp only [PyAssoc.set, PyAssoc.lookup, he, if_false, ite_false]
      exact pyassoc_lookup_set_self t k v

theorem pyassoc_erase_set_not_has (d : PyAssoc) (k : String) (v : PyValue)
    (h : d.hasKey k = false) : (d.set k v).erase k = d := by
  cases d with
  | nil => simp [PyAssoc.set, PyAssoc.erase]
  | cons k2 v2 t =>
    simp only [PyAssoc.hasKey, Bool.or_eq_false_iff, decide_eq_false_iff_not] at h
    simp only [PyAssoc.set, PyAssoc.erase, h.1, if_false, ite_false]
    rw [pyassoc_erase_set_not_has t k v h.2]

theorem pyassoc_lookup_erase_ne (d : PyAssoc) (k k2 : String) (hne : k2 ≠ k) :
    (d.erase k2).lookup k = d.lookup k := by
  cases d with
  | nil => rfl
  | cons k3 v t =>
    by_cases he : k3 = k2
    · subst he
      simp only [PyAssoc.erase, if_pos rfl, if_true, ite_true, PyAssoc.lookup]
      rw [if_neg hne]
    · simp only [PyAssoc.erase, he, if_false, ite_false, PyAssoc.lookup]
      by_cases hk : k3 = k
      · simp [hk]
      · rw [if_neg hk, if_neg hk]
        exact pyassoc_lookup_erase_ne t k k2 hne

/-- C4: reconstructing a serialized failure recovers the original state and
type names whenever the captured state has no `type` entry of its own. -/
theorem failureFromJSON_failureAsJSON (st : PyAssoc) (tyModule tyName : String)
    (h : st.hasKey ("type") = false) :
    failureFromJSON (failureAsJSON st tyModule tyName) =
      .ok (.failure st tyModule tyName) := by
  unfold failureFromJSON failureAsJSON
  rw [pyassoc_lookup_set_self]
  show Except.ok (PyValue.failure
      ((st.set ("type") (.dict (.cons (.str ("__module__")) (.str tyModule)
        (.cons (.str ("__name__")) (.str tyName) .nil)))).erase ("type"))
      tyModule tyName) =
    Except.ok (PyValue.failure st tyModule tyName)
  rw [pyassoc_erase_set_not_has st _ _ h]

theorem failureFromJSON_failureAsJSON_witness :
    c4State.hasKey ("type") = false ∧
    failureFromJSON (failureAsJSON c4State ("app.errors") ("BoomError")) =
      .ok (.failure c4State ("app.errors") ("BoomError")) :=
  ⟨rfl, failureFromJSON_failureAsJSON c4State ("app.errors") ("BoomError") rfl⟩

/-- C7 (corrected): the hook passes the mapping to the loader with the
type-tag entry still present; an untagged mapping comes back unchanged. -/
theorem objectLoadHook_keeps_tag :
    (∀ d : PyAssoc, d.lookup classUuidKey = Option.none →
        objectLoadHook d = .ok (.dict (pyDictOfAssoc d))) ∧
    (∀ (d : PyAssoc) (s : String), d.lookup classUuidKey = some (.str s) →
        normUUID s = .ok failureTagNorm →
        objectLoadHook d = failureFromJSON d) ∧
    (∀ (d : PyAssoc) (s : String), d.lookup classUuidKey = some (.str s) →
        normUUID s = .ok levelTagNorm →
        objectLoadHook d = loadLevel d) := by
  refine ⟨?_, ?_, ?_⟩
  · intro d hd
    simp [objectLoadHook, hd]
  · intro d s hd hs
    simp only [objectLoadHook]
    rw [hd]
    show (match normUUID s with
      | .ok u =>
        if u = levelTagNorm then loadLevel d
        else if u = failureTagNorm then failureFromJSON d
        else Except.error PyErr.keyError
      | .error e => Except.error e) = failureFromJSON d
    rw [hs]
    show (if failureTagNorm = levelTagNorm then loadLevel d
      else if failureTagNorm = failureTagNorm then failureFromJSON d
      else Except.error PyErr.keyError) = failureFromJSON d
    rw [if_neg (by decide), if_pos rfl]
  · intro d s hd hs
    simp only [objectLoadHook]
    rw [hd]
    show (match normUUID s with
      | .ok u =>
        if u = levelTagNorm then loadLevel d
        else if u = failureTagNorm then failureFromJSON d
        else Except.error PyErr.keyError
      | .error e => Except.error e) = loadLevel d
    rw [hs]
    show (if levelTagNorm = levelTagNorm then loadLevel d
      else if levelTagNorm = failureTagNorm then failureFromJSON d
      else Except.error PyErr.keyError) = loadLevel d
    rw [if_pos rfl]

theorem objectLoadHook_keeps_tag_witness :
    PyAssoc.lookup classUuidKey (.cons ("x") (.str ("y")) .nil) = Option.none ∧
    objectLoadHook (.cons ("x") (.str ("y")) .nil) =
      .ok (.dict (pyDictOfAssoc (.cons ("x") (.str ("y")) .nil))) :=
  ⟨rfl, objectLoadHook_keeps_tag.1 (.cons ("x") (.str ("y")) .nil) rfl⟩

/-- C7 counterexample: decoding a tagged failure mapping leaves the
`__class_uuid__` entry inside the reconstructed failure state — the hook
never removed it. -/
theorem tag_retained_in_loader_cex :
    objectLoadHook c7Dict =
      .ok (.failure (.cons classUuidKey (.str failureTagText)
        (.cons ("message") (.str ("boom")) .nil)) ("m") ("E")) ∧
    (PyAssoc.cons classUuidKey (.str failureTagText)
        (.cons ("message") (.str ("boom")) .nil)).hasKey classUuidKey = true :=
  ⟨rfl, rfl⟩

/-- The round trip on the float-free native fragment: for an event whose
fields hold only text, integers, booleans, `None`, sequences and
text-keyed mappings, none of which uses the reserved `__class_uuid__`
key, decoding the encoded text yields the original event.  (Float
fields are outside the embedding, see the module comment.) -/
theorem eventFromJSON_eventAsJSON (xs : PyDict)
    (h : nativeOkV (.dict xs) = true) :
    eventFromJSON (eventAsJSON (.dict xs)).1 = .ok (.dict xs) := by
  show eventFromJSONChars (printJ (jOfPy (PyValue.dict xs))) =
    Except.ok (PyValue.dict xs)
  unfold eventFromJSONChars
  rw [parseTop_printJ _ (jwfB_jOfPy _ h)]
  exact pyOfJ_jOfPy _ h

theorem eventFromJSON_eventAsJSON_witness :
    nativeOkV (.dict c1Dict) = true ∧
    eventFromJSON (eventAsJSON (.dict c1Dict)).1 = .ok (.dict c1Dict) :=
  ⟨rfl, eventFromJSON_eventAsJSON c1Dict rfl⟩

/-- The reserved key breaks the round trip: an event of plain text
values whose nested mapping happens to use the key `__class_uuid__`
is mistaken for a tagged object on decode, which raises (here a
`ValueError`, the malformed-tag case) instead of returning the event. -/
theorem roundtrip_reserved_key_cex :
    eventFromJSON (eventAsJSON c1CexEvent).1 = .error .valueError ∧
    eventFromJSON (eventAsJSON c1CexEvent).1 ≠ .ok c1CexEvent :=
  ⟨rfl, fun h => Except.noConfusion
    ((show eventFromJSON (eventAsJSON c1CexEvent).1 =
        Except.error PyErr.valueError from rfl).symm.trans h)⟩

/-- C3 (corrected): a well-formed but unregistered type tag makes the hook
fail with the registry lookup's `KeyError`; in a stream, that exception is
not the `ValueError` the reader catches, so the iteration aborts after the
events before the offending record, with no diagnostic. -/
theorem unknownTypeTag_keyError_aborts :
    (∀ (d : PyAssoc) (s : String) (u : List Char),
        d.lookup classUuidKey = some (.str s) → normUUID s = .ok u →
        u ≠ levelTagNorm → u ≠ failureTagNorm →
        objectLoadHook d = .error .keyError) ∧
    (∀ (r1 r2 r3 : List Nat) (e1 : PyValue),
        (30 : Nat) ∉ r1 → (30 : Nat) ∉ r2 → (30 : Nat) ∉ r3 →
        endsWithLF r1 = true → eventFromJSONBytes r1 = .ok e1 →
        endsWithLF r2 = true → eventFromJSONBytes r2 = .error .keyError →
        eventsFromJSONLogFile [[30] ++ r1 ++ [30] ++ r2 ++ [30] ++ r3] =
          ⟨[e1], 0, some .keyError⟩) := by
  constructor
  · intro d s u hd hs hl hf
    simp only [objectLoadHook]
    rw [hd]
    show (match normUUID s with
      | .ok u =>
        if u = levelTagNorm then loadLevel d
        else if u = failureTagNorm then failureFromJSON d
        else Except.error PyErr.keyError
      | .error e => Except.error e) = Except.error PyErr.keyError
    rw [hs]
    show (if u = levelTagNorm then loadLevel d
      else if u = failureTagNorm then failureFromJSON d
      else Except.error PyErr.keyError) = Except.error PyErr.keyError
    rw [if_neg hl, if_neg hf]
  · intro r1 r2 r3 e1 h1 h2 h3 h1lf h1ok h2lf h2bad
    exact framer_three_raised r1 r2 r3 e1 .keyError h1 h2 h3 h1lf h1ok h2lf h2bad
      (by decide)

theorem unknownTypeTag_keyError_aborts_witness :
    objectLoadHook (.cons classUuidKey (.str c3Zero) .nil) =
      .error .keyError ∧
    eventsFromJSONLogFile [[30] ++ c3r1 ++ [30] ++ c3r2 ++ [30] ++ c3r3] =
      ⟨[.dict (.cons (.str ("a")) (.str ("x")) .nil)], 0, some .keyError⟩ :=
  ⟨unknownTypeTag_keyError_aborts.1 (.cons classUuidKey (.str c3Zero) .nil)
      c3Zero (List.replicate 32 ('0')) rfl rfl (by decide) (by decide),
    unknownTypeTag_keyError_aborts.2 c3r1 c3r2 c3r3
      (.dict (.cons (.str ("a")) (.str ("x")) .nil))
      (by decide) (by decide) (by decide) rfl rfl rfl rfl⟩

/-- C3 counterexample: in the concrete stream of a good record, a record
tagged with the all-zero (unregistered) UUID, and another good record, the
iteration stops after the first event with the uncaught `KeyError` — it
does not report a diagnostic and continue to the third record as claimed. -/
theorem unknownTypeTag_stream_abort_cex :
    eventsFromJSONLogFile [[30] ++ c3r1 ++ [30] ++ c3r2 ++ [30] ++ c3r3] =
      ⟨[.dict (.cons (.str ("a")) (.str ("x")) .nil)], 0, some .keyError⟩ ∧
    eventsFromJSONLogFile [[30] ++ c3r1 ++ [30] ++ c3r2 ++ [30] ++ c3r3] ≠
      ⟨[.dict (.cons (.str ("a")) (.str ("x")) .nil), .dict .nil], 1,
        Option.none⟩ :=
  ⟨rfl, fun h => absurd (congrArg StreamOut.diags h) (by decide)⟩

theorem eventsFromJSONLogFile_split_two_witness :
    0 < 2 ∧
    eventsFromJSONLogFile [c2Stream.take 2, c2Stream.drop 2] =
      eventsFromJSONLogFile [c2Stream] :=
  ⟨by decide, eventsFromJSONLogFile_split_two c2Stream 2 (by decide)⟩

/-- C2 counterexample: at byte offset 0 the first read is empty, the
reader takes it for end-of-file and stops at once, so the split stream
yields no event while the single read yields one. -/
theorem eventsFromJSONLogFile_split_zero_cex :
    eventsFromJSONLogFile [c2Stream.take 0, c2Stream.drop 0] ≠
      eventsFromJSONLogFile [c2Stream] :=
  fun h => absurd (congrArg (fun o => o.events.length) h) (by decide)

/-- C5: the text `eventAsJSON` produces contains no raw line feed, for
any event — line feeds inside text values are escaped away. -/
theorem eventAsJSON_no_linefeed (event : PyValue) :
    ∀ c ∈ (eventAsJSON event).1.data, c.toNat ≠ 10 := by
  intro c hc
  exact printJ_not_lf (jOfPy (flattenEvent event)) c hc

theorem eventAsJSON_no_linefeed_witness :
    Char.ofNat 123 ∈ (eventAsJSON (.dict .nil)).1.data ∧
    (Char.ofNat 123).toNat ≠ 10 :=
  ⟨by decide, eventAsJSON_no_linefeed (.dict .nil) (Char.ofNat 123) (by decide)⟩

theorem framer_three_diag_witness :
    eventsFromJSONLogFile [[30] ++ c6r1 ++ [30] ++ c6r2 ++ [30] ++ c6r3] =
      ⟨[.dict (.cons (.str ("b")) (.int 1) .nil), .dict .nil], 1,
        Option.none⟩ :=
  framer_three_diag c6r1 c6r2 c6r3
    (.dict (.cons (.str ("b")) (.int 1) .nil)) (.dict .nil)
    (by decide) (by decide) (by decide) rfl rfl rfl rfl rfl rfl

/-- C8: the encoder does not mutate the event: the state of the event
mapping after `eventAsJSON` is the event it was handed. -/
theorem eventAsJSON_preserves_event (event : PyValue) :
    (eventAsJSON event).2 = event := rfl

/-- C9: over a file holding exactly `alice:secret` and a line feed, with
the default delimiter and field indices, `getUser` finds alice's couple
and raises `KeyError` for bob. -/
theorem filePasswordDB_getUser_example :
    c9db.getUser (asciiBytes ("alice")) =
      .ok (asciiBytes ("alice"), asciiBytes ("secret")) ∧
    c9db.getUser (asciiBytes ("bob")) = .error .keyError :=
  ⟨rfl, rfl⟩

/-- C10: a line with too few delimiter-separated parts to reach the
configured username or password field contributes no credential pair and
raises nothing; `getUser` raises `KeyError` exactly when no line's
contributed pair carries the requested (canonicalized) username. -/
theorem filePasswordDB_short_lines (db : FilePasswordDB) (username : List Nat) :
    (∀ line ∈ pyLines db.fileBytes,
        db.ufield ≥ (splitOnByte db.delim (rstrip line)).length ∨
          db.pfield ≥ (splitOnByte db.delim (rstrip line)).length →
        db.lineCred line = Option.none) ∧
    (db.getUser username = .error .keyError ↔
      ∀ line ∈ pyLines db.fileBytes,
        (db.lineCred line).all
          (fun p => !(p.1 ==
            (if db.caseSensitive then username else lowerBytes username))) =
          true) := by
  constructor
  · intro line hmem hshort
    simp only [FilePasswordDB.lineCred]
    rw [if_pos hshort]
  · set u := if db.caseSensitive then username else lowerBytes username with hu
    constructor
    · intro herr
      have hnone : (FilePasswordDB.loadCredentials db).find?
          (fun p => p.1 = u) = Option.none := by
        cases hf : (FilePasswordDB.loadCredentials db).find?
            (fun p => p.1 = u) with
        | none => rfl
        | some p =>
          exfalso
          have hg : db.getUser username =
              (match (FilePasswordDB.loadCredentials db).find?
                  (fun p => p.1 = u) with
                | some q => Except.ok q
                | Option.none => Except.error PyErr.keyError) := rfl
          rw [hg, hf] at herr
          exact Except.noConfusion herr
      have hball := List.find?_eq_none.mp hnone
      intro line hmem
      cases hl : db.lineCred line with
      | none => rfl
      | some p =>
        have hp : p ∈ FilePasswordDB.loadCredentials db := by
          simp only [FilePasswordDB.loadCredentials]
          exact List.mem_filterMap.mpr ⟨line, hmem, hl⟩
        have hne := hball p hp
        simp only [decide_eq_true_eq] at hne
        simp [Option.all, hne]
    · intro hall
      have hnone : (FilePasswordDB.loadCredentials db).find?
          (fun p => p.1 = u) = Option.none := by
        refine List.find?_eq_none.mpr ?_
        intro p hp
        simp only [FilePasswordDB.loadCredentials] at hp
        obtain ⟨line, hmem, hl⟩ := List.mem_filterMap.mp hp
        have h2 := hall line hmem
        rw [hl] at h2
        simp only [Option.all, Bool.not_eq_eq_eq_not, Bool.not_true,
          beq_eq_false_iff_ne, ne_eq] at h2
        simp [h2]
      have hg : db.getUser username =
          (match (FilePasswordDB.loadCredentials db).find?
              (fun p => p.1 = u) with
            | some q => Except.ok q
            | Option.none => Except.error PyErr.keyError) := rfl
      rw [hg, hnone]

theorem filePasswordDB_short_lines_witness :
    c10db.lineCred (asciiBytes ("alice\n")) = Option.none ∧
    c10db.getUser (asciiBytes ("alice")) = .error .keyError :=
  ⟨(filePasswordDB_short_lines c10db (asciiBytes ("alice"))).1
      (asciiBytes ("alice\n")) (by decide) (by decide),
    (filePasswordDB_short_lines c10db (asciiBytes ("alice"))).2.mpr (by decide)⟩
